import Mathlib

/-!
# Pinwatta portal: theme preference and contact form

A shallow embedding of the two stateful units of the portal's client code:

* `ThemeManager` of `assets/js/main.js` (stored preference, OS colour-scheme
  signal, the `dark` class on the root element);
* the contact-form handler of `assets/js/contact.js` (validation, the single
  call to the email relay, its settlement handlers).

The theme operations are given twice: over a store that always works, and, in
`ThemeManager.FallibleStore`, over a store whose read or write may raise.
The markup of the pages is not part of the sources; what the handlers need
from it (the controls of the form with their default values and containers,
the submit button with its text and spinner) is carried by the page state.

JavaScript values are modelled as follows.  A string is a Lean `String`
(its characters are `s.toList`).  `null` is `none`.  A value is truthy in a
condition when it is neither `null` nor the empty string.  The regular
expression of `isValidEmail` has no `u` flag and runs over UTF-16 code units;
a character outside the basic plane is two code units, neither of them white
space nor `@`, so matching character by character gives the same result.
-/

namespace Pinwatta

/-! ## JavaScript string primitives -/

/-- Truthiness of a value that is either `null` or a string: `null` and the
empty string are falsy, every other string is truthy. -/
def jsTruthy : Option String → Bool
  | none => false
  | some s => s != ""

/-! ## ThemeManager (assets/js/main.js) -/

/-- The state read and written by `ThemeManager`:
`storage` is `localStorage.getItem("pinwatta-theme")` (`none` for `null`),
`prefersDark` is `window.matchMedia("(prefers-color-scheme: dark)").matches`,
`darkClass` is `htmlElement.classList.contains("dark")`. -/
structure ThemeState where
  storage : Option String
  prefersDark : Bool
  darkClass : Bool
  deriving DecidableEq, Repr

namespace ThemeManager

/-- Source `setDarkTheme`: add the class, then store `"dark"`. -/
def setDarkTheme (s : ThemeState) : ThemeState :=
  { s with darkClass := true, storage := some "dark" }

/-- Source `setLightTheme`: remove the class, then store `"light"`. -/
def setLightTheme (s : ThemeState) : ThemeState :=
  { s with darkClass := false, storage := some "light" }

/-- Source `loadSavedTheme`:
`shouldUseDark = savedTheme ? savedTheme === "dark" : prefersDark`, then the
class is added or removed accordingly.  Storage is only read. -/
def loadSavedTheme (s : ThemeState) : ThemeState :=
  let savedTheme := s.storage
  let prefersDark := s.prefersDark
  let shouldUseDark :=
    if jsTruthy savedTheme then decide (savedTheme = some "dark") else prefersDark
  if shouldUseDark then { s with darkClass := true } else { s with darkClass := false }

/-- Source `toggleTheme`: reads the class and calls `setLightTheme` or
`setDarkTheme`.  The two calls that follow (`updateToggleStates`,
`addToggleFeedback`) only restyle the toggle buttons and touch neither the
class nor the storage, so they are the identity on `ThemeState`. -/
def toggleTheme (s : ThemeState) : ThemeState :=
  let isDark := s.darkClass
  if isDark then setLightTheme s else setDarkTheme s

/-- The `change` listener registered in `setupEventListeners` on the
`prefers-color-scheme` media query.  The event carries the new value of the
signal (`e.matches`), which is also what the query reports from then on. -/
def onSystemThemeChange (matchesDark : Bool) (s : ThemeState) : ThemeState :=
  let s := { s with prefersDark := matchesDark }
  if !jsTruthy s.storage then
    if matchesDark then setDarkTheme s else setLightTheme s
  else s

/-- Handling of a finite sequence of OS colour-scheme change events, in order. -/
def onSystemThemeChanges (events : List Bool) (s : ThemeState) : ThemeState :=
  events.foldl (fun st m => onSystemThemeChange m st) s

end ThemeManager

/-! ## ThemeManager with a preference store that can fail -/

/-- Availability of the preference store: whether `localStorage.getItem` and
`localStorage.setItem` raise when called. -/
structure StoreFaults where
  readFails : Bool
  writeFails : Bool
  deriving DecidableEq, Repr

/-- How a call ends: it returns, or an exception leaves it.  No method of
`ThemeManager` has a `try`, so an exception raised by the store leaves the
method that called it. -/
inductive Completion where
  | normal
  | raised
  deriving DecidableEq, Repr

namespace ThemeManager.FallibleStore

/-- Source `setDarkTheme`: the class is added first, then `setItem` is called;
when it raises, the stored value is left as it was. -/
def setDarkTheme (k : StoreFaults) (s : ThemeState) : ThemeState × Completion :=
  let s := { s with darkClass := true }
  if k.writeFails then (s, .raised) else ({ s with storage := some "dark" }, .normal)

/-- Source `setLightTheme`: the class is removed first, then `setItem` is
called; when it raises, the stored value is left as it was. -/
def setLightTheme (k : StoreFaults) (s : ThemeState) : ThemeState × Completion :=
  let s := { s with darkClass := false }
  if k.writeFails then (s, .raised) else ({ s with storage := some "light" }, .normal)

/-- Source `loadSavedTheme`: `getItem` is its first statement; when it raises,
nothing else runs. -/
def loadSavedTheme (k : StoreFaults) (s : ThemeState) : ThemeState × Completion :=
  if k.readFails then (s, .raised)
  else
    let savedTheme := s.storage
    let prefersDark := s.prefersDark
    let shouldUseDark :=
      if jsTruthy savedTheme then decide (savedTheme = some "dark") else prefersDark
    if shouldUseDark then ({ s with darkClass := true }, .normal)
    else ({ s with darkClass := false }, .normal)

/-- Source `toggleTheme`: it reads the class only and calls `setLightTheme` or
`setDarkTheme`; when that call raises, the restyling of the buttons is
skipped. -/
def toggleTheme (k : StoreFaults) (s : ThemeState) : ThemeState × Completion :=
  let isDark := s.darkClass
  if isDark then setLightTheme k s else setDarkTheme k s

/-- The `change` listener on the colour-scheme query: `getItem` is called in
its condition. -/
def onSystemThemeChange (k : StoreFaults) (matchesDark : Bool) (s : ThemeState) :
    ThemeState × Completion :=
  let s := { s with prefersDark := matchesDark }
  if k.readFails then (s, .raised)
  else if !jsTruthy s.storage then
    if matchesDark then setDarkTheme k s else setLightTheme k s
  else (s, .normal)

end ThemeManager.FallibleStore

/-! ## Strings and regular expressions of the contact form -/

/-- The ECMAScript white-space and line-terminator code points: the characters
stripped by `String.prototype.trim` and matched by the class escape `\s`. -/
def isJsWhiteSpace (c : Char) : Bool :=
  let n := c.toNat
  n == 0x09 || n == 0x0A || n == 0x0B || n == 0x0C || n == 0x0D || n == 0x20 ||
  n == 0xA0 || n == 0x1680 || (decide (0x2000 ≤ n) && decide (n ≤ 0x200A)) ||
  n == 0x2028 || n == 0x2029 || n == 0x202F || n == 0x205F || n == 0x3000 ||
  n == 0xFEFF

/-- The method `String.prototype.trim` on the characters of a string: white
space is removed from both ends. -/
def jsTrimChars (cs : List Char) : List Char :=
  ((cs.dropWhile isJsWhiteSpace).reverse.dropWhile isJsWhiteSpace).reverse

/-- The method `String.prototype.trim`. -/
def jsTrim (s : String) : String := String.mk (jsTrimChars s.toList)

/-- Quantifier of one term of a regular expression. -/
inductive Quantifier where
  | one
  | plus
  deriving DecidableEq, Repr

/-- One term of a regular expression that is a sequence of character classes:
the class and its quantifier. -/
structure RegexTerm where
  cls : Char → Bool
  quant : Quantifier

/-- The method `RegExp.prototype.test` for a pattern `^t₁t₂…tₙ$` whose terms
are quantified character classes, by backtracking: a `+` term consumes one
character and then either goes on consuming or hands over to the next term. -/
def regexTest : List RegexTerm → List Char → Bool
  | [], [] => true
  | [], _ :: _ => false
  | _ :: _, [] => false
  | t :: ts, c :: cs =>
    t.cls c &&
      (match t.quant with
       | .one => regexTest ts cs
       | .plus => regexTest (t :: ts) cs || regexTest ts cs)

/-- The class `[^\s@]`. -/
def notSpaceNotAt (c : Char) : Bool := !(isJsWhiteSpace c || c == '@')

/-- The literal of `isValidEmail`: `/^[^\s@]+@[^\s@]+\.[^\s@]+$/`. -/
def emailRegex : List RegexTerm :=
  [⟨notSpaceNotAt, .plus⟩, ⟨fun c => c == '@', .one⟩, ⟨notSpaceNotAt, .plus⟩,
   ⟨fun c => c == '.', .one⟩, ⟨notSpaceNotAt, .plus⟩]

/-- Source `isValidEmail`: `emailRegex.test(email)`. -/
def isValidEmail (email : String) : Bool := regexTest emailRegex email.toList

/-! ## The contact form (assets/js/contact.js) -/

/-- A control of `#contact-form` (an `input`, `textarea` or `select`):
its `name` attribute, current and default value, whether it has the
`required` attribute, whether it carries the classes `border-red-500` and
`dark:border-red-400`, and its `parentNode`.

The elements of the form are numbered in the order of their closing tags, so
that the subtree of an element is an interval of numbers that ends at the
element's own number.  `parent` is the number of the control's `parentNode`
and `parentFirst` the least number in the subtree of that `parentNode`: an
element numbered `n` lies in the `parentNode` or below it exactly when
`parentFirst ≤ n ≤ parent`. -/
structure Field where
  name : String
  value : String
  defaultValue : String
  required : Bool
  redBorder : Bool
  parent : Nat
  parentFirst : Nat
  deriving DecidableEq, Repr

/-- The submit button `#submit-btn`: its `disabled` property and whether it
carries the class `opacity-75`. -/
structure SubmitBtn where
  disabled : Bool
  opacity75 : Bool
  deriving DecidableEq, Repr

/-- The object passed to `emailjs.send`.  `formData.get` yields `null`
(`none`) for a name without a control. -/
structure TemplateParams where
  from_name : String
  from_email : Option String
  subject : Option String
  message : Option String
  to_name : String
  reply_to : Option String
  deriving DecidableEq, Repr

/-- A call observed during a run, in the order of execution. -/
inductive Call where
  | clearValidationStates
  | showFieldError (field : Nat) (message : String)
  | setLoadingState (isLoading : Bool)
  | emailjsSend (serviceId templateId : String) (params : TemplateParams)
  | showNotification (message type : String)
  | formReset
  deriving DecidableEq, Repr

/-- The state of the contact page.
`fields` are the controls of the form in document order; `errorMessages` are
the elements of class `error-message` in document order, each with its text
and its place: the number of the element it was appended to (it sits right
before that element's closing tag), or its own number when it came with the
markup; `submitBtn`, `submitText`, `submitSpinner` are the
three elements looked up by id at load (`none` when absent; the text is
`textContent`, the spinner flag is its `hidden` class); `notifications` are
the notifications appended to the body; `pending` counts the promises returned
by `emailjs.send` that have not settled yet; `calls` is the trace. -/
structure Page where
  fields : List Field
  errorMessages : List (Nat × String)
  submitBtn : Option SubmitBtn
  submitText : Option String
  submitSpinner : Option Bool
  notifications : List (String × String)
  pending : Nat
  calls : List Call
  deriving DecidableEq, Repr

/-- The constant `CONFIG.SERVICE_ID`. -/
def SERVICE_ID : String := "service_rtfvja2"

/-- The constant `CONFIG.TEMPLATE_ID`. -/
def TEMPLATE_ID : String := "template_0lupgms"

/-- Index of the first control whose `name` attribute is `name`:
`contactForm.querySelector('[name="…"]')`. -/
def querySelectorByName (name : String) : List Field → Option Nat
  | [] => none
  | f :: fs =>
    if f.name == name then some 0 else (querySelectorByName name fs).map (· + 1)

/-- Whether an error message lies in the subtree of the element numbered
`parent` whose subtree starts at `parentFirst`. -/
def inSubtree (parentFirst parent : Nat) (m : Nat × String) : Bool :=
  decide (parentFirst ≤ m.1) && decide (m.1 ≤ parent)

/-- Removal of the first `.error-message` element, in document order, in the
subtree of a container: `parentNode.querySelector(".error-message")` followed
by `remove()`. -/
def removeErrorMessage (parentFirst parent : Nat) (msgs : List (Nat × String)) :
    List (Nat × String) :=
  msgs.eraseP (inSubtree parentFirst parent)

/-- The call `parentNode.appendChild(errorDiv)`: the new element becomes the
last child of the container, after every element that closes no later than
the container and before every element that closes after it. -/
def appendErrorMessage (parent : Nat) (message : String) (msgs : List (Nat × String)) :
    List (Nat × String) :=
  msgs.takeWhile (fun m => decide (m.1 ≤ parent)) ++
    (parent, message) :: msgs.dropWhile (fun m => decide (m.1 ≤ parent))

/-- Source `showFieldError`: the field gets the red-border classes, the first
error message found in its container is removed and a new one is appended to
the container. -/
def showFieldError (i : Nat) (message : String) (p : Page) : Page :=
  match p.fields.get? i with
  | none => p
  | some field =>
    { p with
      fields := p.fields.modify (fun f => { f with redBorder := true }) i
      errorMessages :=
        appendErrorMessage field.parent message
          (removeErrorMessage field.parentFirst field.parent p.errorMessages)
      calls := p.calls ++ [.showFieldError i message] }

/-- Source `clearValidationStates`: every control loses the red-border classes
and, for every control in turn, the first error message found in its
container is removed. -/
def clearValidationStates (p : Page) : Page :=
  { p with
    fields := p.fields.map (fun f => { f with redBorder := false })
    errorMessages :=
      p.fields.foldl (fun msgs f => removeErrorMessage f.parentFirst f.parent msgs)
        p.errorMessages
    calls := p.calls ++ [.clearValidationStates] }

/-- The list `requiredFields` of `validateForm`. -/
def requiredFields : List String := ["firstName", "lastName", "email", "message"]

/-- The body of the `forEach` callback of `validateForm`, on the pair of the
flag `isValid` and the page. -/
def validateRequiredField (acc : Bool × Page) (fieldName : String) : Bool × Page :=
  let field := querySelectorByName fieldName acc.2.fields
  match field with
  | none => acc
  | some i =>
    match acc.2.fields.get? i with
    | none => acc
    | some f =>
      if !jsTruthy (some (jsTrim f.value)) then
        (false, showFieldError i "This field is required" acc.2)
      else if fieldName == "email" && !isValidEmail f.value then
        (false, showFieldError i "Please enter a valid email address" acc.2)
      else acc

/-- Source `validateForm`: clears the decorations, checks the required fields
in order and returns the flag `isValid` (with the page it leaves). -/
def validateForm (p : Page) : Bool × Page :=
  requiredFields.foldl validateRequiredField (true, clearValidationStates p)

/-- Source `setLoadingState`: nothing happens unless the button, its text and
its spinner all exist. -/
def setLoadingState (isLoading : Bool) (p : Page) : Page :=
  let p := { p with calls := p.calls ++ [Call.setLoadingState isLoading] }
  match p.submitBtn, p.submitText, p.submitSpinner with
  | some btn, some _, some _ =>
    if isLoading then
      { p with
        submitBtn := some { btn with disabled := isLoading, opacity75 := true }
        submitText := some "Sending..."
        submitSpinner := some false }
    else
      { p with
        submitBtn := some { btn with disabled := isLoading, opacity75 := false }
        submitText := some "Send Message"
        submitSpinner := some true }
  | _, _, _ => p

/-- The call `formData.get(name)`: the value of the first control of that name. -/
def formDataGet (name : String) (p : Page) : Option String :=
  (p.fields.find? (fun f => f.name == name)).map (·.value)

/-- Rendering of a value inside a template literal: `null` prints as "null". -/
def templateString : Option String → String
  | none => "null"
  | some s => s

/-- The object `templateParams` built by `handleFormSubmit`. -/
def templateParams (p : Page) : TemplateParams :=
  { from_name := templateString (formDataGet "firstName" p) ++ " " ++
      templateString (formDataGet "lastName" p)
    from_email := formDataGet "email" p
    subject := formDataGet "subject" p
    message := formDataGet "message" p
    to_name := "Pinwatta Portal Team"
    reply_to := formDataGet "email" p }

/-- The call `emailjs.send(…)`: the relay is called once and its promise is
pending. -/
def emailjsSend (params : TemplateParams) (p : Page) : Page :=
  { p with
    pending := p.pending + 1
    calls := p.calls ++ [.emailjsSend SERVICE_ID TEMPLATE_ID params] }

/-- Source `showNotification`: the notification element is appended to the
body (its timers are not modelled). -/
def showNotification (message type : String) (p : Page) : Page :=
  { p with
    notifications := p.notifications ++ [(message, type)]
    calls := p.calls ++ [.showNotification message type] }

/-- Source `handleFormSubmit`, up to the moment the promise is created: the
form is validated; if it is rejected the handler returns; otherwise the
loading state is set and `emailjs.send` is called. -/
def handleFormSubmit (p : Page) : Page :=
  let r := validateForm p
  if !r.1 then r.2
  else
    let p := setLoadingState true r.2
    emailjsSend (templateParams p) p

/-- The method `contactForm.reset()`: every control takes its default value. -/
def formReset (p : Page) : Page :=
  { p with
    fields := p.fields.map (fun f => { f with value := f.defaultValue })
    calls := p.calls ++ [.formReset] }

/-- The `then` handler of `handleFormSubmit`. -/
def onFulfilled (p : Page) : Page :=
  clearValidationStates (formReset
    (showNotification "Message sent successfully! We'll get back to you soon." "success" p))

/-- The message built by the `catch` handler from `error.status` (`none` when
the error has no numeric status). -/
def errorMessage (status : Option Int) : String :=
  let errorMessage := "Failed to send message. "
  if status = some 400 then errorMessage ++ "Please check your form data."
  else if status = some 401 then
    errorMessage ++ "Authentication error - please check your EmailJS configuration."
  else if status = some 404 then errorMessage ++ "Service or template not found."
  else if status = some 429 then errorMessage ++ "Too many requests. Please try again later."
  else errorMessage ++ "Please try again or contact us directly."

/-- The `catch` handler of `handleFormSubmit`. -/
def onRejected (status : Option Int) (p : Page) : Page :=
  showNotification (errorMessage status) "error" p

/-- The `finally` handler of `handleFormSubmit`. -/
def onFinally (p : Page) : Page := setLoadingState false p

/-- How the promise of `emailjs.send` settles. -/
inductive Outcome where
  | fulfilled
  | rejected (status : Option Int)
  deriving DecidableEq, Repr

/-- Settlement of one pending promise: `then` or `catch`, then `finally`. -/
def settle (o : Outcome) (p : Page) : Page :=
  let p := { p with pending := p.pending - 1 }
  match o with
  | .fulfilled => onFinally (onFulfilled p)
  | .rejected status => onFinally (onRejected status p)

/-- Source `validateField`, the `blur` listener of a control. -/
def validateField (i : Nat) (p : Page) : Bool × Page :=
  match p.fields.get? i with
  | none => (true, p)
  | some field =>
    let value := jsTrim field.value
    let fieldName := field.name
    if field.required && !jsTruthy (some value) then
      (false, showFieldError i "This field is required" p)
    else if fieldName == "email" && jsTruthy (some value) && !isValidEmail value then
      (false, showFieldError i "Please enter a valid email address" p)
    else (true, p)

/-- The user types into control `i`: its value changes and the `input`
listener removes its red border and the first error message found in its
container. -/
def onInput (i : Nat) (v : String) (p : Page) : Page :=
  match p.fields.get? i with
  | none => p
  | some field =>
    { p with
      fields := p.fields.modify (fun f => { f with value := v, redBorder := false }) i
      errorMessages := removeErrorMessage field.parentFirst field.parent p.errorMessages }

/-- Number of calls to `emailjs.send` in a trace. -/
def sendCount (calls : List Call) : Nat :=
  calls.countP (fun c => match c with | .emailjsSend _ _ _ => true | _ => false)

/-- One step of the page with every submit event delivered to
`handleFormSubmit`: a submit event, the settlement of a pending send, typing
into a control, or a control losing focus. -/
inductive Step : Page → Page → Prop where
  | submit (p : Page) : Step p (handleFormSubmit p)
  | settle (p : Page) (o : Outcome) : 0 < p.pending → Step p (settle o p)
  | input (p : Page) (i : Nat) (v : String) : Step p (onInput i v p)
  | blur (p : Page) (i : Nat) : Step p (validateField i p).2

/-- States reachable from `p₀` through `Step`. -/
inductive Reachable (p₀ : Page) : Page → Prop where
  | init : Reachable p₀ p₀
  | step {p q : Page} : Reachable p₀ p → Step p q → Reachable p₀ q

/-- Whether a submit event can be raised through the submit button: the
button exists and is not disabled. -/
def submitEnabled (p : Page) : Bool :=
  match p.submitBtn with
  | some btn => !btn.disabled
  | none => false

/-- One step of the page when submit events come from the submit button
only: the browser raises none while the button is disabled. -/
inductive GuardedStep : Page → Page → Prop where
  | submit (p : Page) : submitEnabled p = true → GuardedStep p (handleFormSubmit p)
  | settle (p : Page) (o : Outcome) : 0 < p.pending → GuardedStep p (settle o p)
  | input (p : Page) (i : Nat) (v : String) : GuardedStep p (onInput i v p)
  | blur (p : Page) (i : Nat) : GuardedStep p (validateField i p).2

/-- States reachable from `p₀` through `GuardedStep`. -/
inductive GuardedReachable (p₀ : Page) : Page → Prop where
  | init : GuardedReachable p₀ p₀
  | step {p q : Page} : GuardedReachable p₀ p → GuardedStep p q → GuardedReachable p₀ q

/-- A page with nothing pending and with the submit button, its text and its
spinner present, the button enabled. -/
def Page.Idle (p : Page) : Prop :=
  p.pending = 0 ∧ submitEnabled p = true ∧ p.submitText.isSome = true ∧
    p.submitSpinner.isSome = true

/-- A page right after load whose form has the five controls of the record,
each required, undecorated and in a container of its own that holds no other
container. -/
def mkPage (firstName lastName email subject message : String) : Page :=
  { fields :=
      [⟨"firstName", firstName, "", true, false, 0, 0⟩,
       ⟨"lastName", lastName, "", true, false, 1, 1⟩,
       ⟨"email", email, "", true, false, 2, 2⟩,
       ⟨"subject", subject, "", true, false, 3, 3⟩,
       ⟨"message", message, "", true, false, 4, 4⟩]
    errorMessages := []
    submitBtn := some ⟨false, false⟩
    submitText := some "Send Message"
    submitSpinner := some true
    notifications := []
    pending := 0
    calls := [] }

/-! ## Notions used to state the properties -/

/-- The name and value of every control, in document order: what validation
and `FormData` read. -/
def contents (fs : List Field) : List (String × String) :=
  fs.map (fun f => (f.name, f.value))

/-- Calls made by validation: `clearValidationStates` and `showFieldError`. -/
def isValidationCall : Call → Bool
  | .clearValidationStates => true
  | .showFieldError _ _ => true
  | _ => false

/-- The page `q` differs from `p` by validation only: same names and values,
same submit elements, notifications and pending sends, and a trace extended by
validation calls. -/
def ValidationFrame (p q : Page) : Prop :=
  contents q.fields = contents p.fields ∧
    (∃ v : List Call, v.all isValidationCall = true ∧ q.calls = p.calls ++ v) ∧
    q.pending = p.pending ∧ q.submitBtn = p.submitBtn ∧ q.submitText = p.submitText ∧
    q.submitSpinner = p.submitSpinner ∧ q.notifications = p.notifications

/-- The check `validateForm` makes on the value `v` of the required field
`fieldName` (`none`: the form has no such control, which raises no error). -/
def requiredFieldOk (fieldName : String) : Option String → Bool
  | none => true
  | some v => jsTruthy (some (jsTrim v)) && !(fieldName == "email" && !isValidEmail v)

/-- The page with the value of every control named `name` replaced by `v`. -/
def setFieldValue (name v : String) (p : Page) : Page :=
  { p with fields := p.fields.map (fun f => if f.name == name then { f with value := v } else f) }

/-- The pattern of the specification, over the whole string:
`<non-whitespace-non-@>+ '@' <non-whitespace-non-@>+ '.' <non-whitespace-non-@>+`. -/
def MatchesEmailPattern (s : List Char) : Prop :=
  ∃ a b c : List Char, s = a ++ '@' :: (b ++ '.' :: c) ∧ a ≠ [] ∧ b ≠ [] ∧ c ≠ [] ∧
    (∀ x ∈ a, isJsWhiteSpace x = false ∧ x ≠ '@') ∧
    (∀ x ∈ b, isJsWhiteSpace x = false ∧ x ≠ '@') ∧
    (∀ x ∈ c, isJsWhiteSpace x = false ∧ x ≠ '@')

/-- The characters before the first `@`. -/
def beforeAt (s : List Char) : List Char := s.takeWhile (fun c => c != '@')

/-- The characters after the first `@`. -/
def afterAt (s : List Char) : List Char := (s.dropWhile (fun c => c != '@')).drop 1

/-- The equivalent reading of the specification: no white space, exactly one
`@`, something before it, and after it a `.` that is neither the first nor the
last character of that part. -/
def EmailShape (s : List Char) : Prop :=
  (∀ x ∈ s, isJsWhiteSpace x = false) ∧ s.count '@' = 1 ∧ beforeAt s ≠ [] ∧
    ∃ i : Nat, 0 < i ∧ i + 1 < (afterAt s).length ∧ (afterAt s)[i]? = some '.'

/-- The in-flight guard as the page keeps it: the button, its text and its
spinner exist, and either nothing is pending and the button is enabled, or one
send is pending and the button is disabled. -/
def InFlightGuard (p : Page) : Prop :=
  ∃ btn txt sp, p.submitBtn = some btn ∧ p.submitText = some txt ∧ p.submitSpinner = some sp ∧
    ((p.pending = 0 ∧ btn.disabled = false) ∨ (p.pending = 1 ∧ btn.disabled = true))

/-- The markup of the controls that no handler changes: the name, the default
value and the container of every control, in document order. -/
def layout (fs : List Field) : List (String × String × Nat × Nat) :=
  fs.map (fun f => (f.name, f.defaultValue, f.parentFirst, f.parent))

/-- The containers of the controls, in document order. -/
def parents (fs : List Field) : List Nat := fs.map (fun f => f.parent)

/-- The subtree of the container of every control, as the interval from its
least number to its own number. -/
def spans (fs : List Field) : List (Nat × Nat) := fs.map (fun f => (f.parentFirst, f.parent))

/-- Markup in which the container of no control lies inside the container of
another control: every container's interval is well formed, and a container
whose number falls in the interval of another is that other container. -/
def FlatMarkup (fs : List Field) : Prop :=
  ∀ s ∈ spans fs, ∀ t ∈ spans fs, s.1 ≤ s.2 ∧ (s.1 ≤ t.2 → t.2 ≤ s.2 → t.2 = s.2)

/-- Error messages listed in document order. -/
def InDocumentOrder (msgs : List (Nat × String)) : Prop :=
  msgs.Pairwise (fun a b => a.1 ≤ b.1)

/-- Error messages as `showFieldError` keeps them on flat markup: at most one
in a container, and each in the container of a control. -/
def TidyMessages (ps : List Nat) (msgs : List (Nat × String)) : Prop :=
  (msgs.map Prod.fst).Nodup ∧ ∀ m ∈ msgs, m.1 ∈ ps

/-- The page `p` has the markup of `p₀`, which is flat, and tidy error
messages. -/
def Tidy (p₀ p : Page) : Prop :=
  layout p.fields = layout p₀.fields ∧ FlatMarkup p.fields ∧
    TidyMessages (parents p.fields) p.errorMessages

/-- A page whose markup gives the first name and the message a default value,
filled in with a valid record. -/
def prefilledPage : Page :=
  { mkPage "" "" "" "" "" with
    fields :=
      [⟨"firstName", "Jane", "Jane", true, false, 0, 0⟩,
       ⟨"lastName", "Doe", "", true, false, 1, 1⟩,
       ⟨"email", "jane@doe.org", "", true, false, 2, 2⟩,
       ⟨"subject", "", "", true, false, 3, 3⟩,
       ⟨"message", "Dear team, hello", "Dear team,", true, false, 4, 4⟩] }

/-- A page whose markup puts the container of the last name (number 0) inside
the container of the first name (number 1, subtree from 0 to 1), filled in
with a valid record. -/
def nestedPage : Page :=
  { mkPage "" "" "" "" "" with
    fields :=
      [⟨"firstName", "A", "", true, false, 1, 0⟩,
       ⟨"lastName", "B", "", true, false, 0, 0⟩,
       ⟨"email", "a@b.com", "", true, false, 2, 2⟩,
       ⟨"subject", "", "", true, false, 3, 3⟩,
       ⟨"message", "hi", "", true, false, 4, 4⟩] }

/-- A page whose markup comes with three error messages in the container of
the first name, filled in with a valid record. -/
def stalePage : Page :=
  { mkPage "A" "B" "a@b.com" "" "hi" with
    errorMessages := [(0, "old"), (0, "older"), (0, "oldest")] }

/-- A page without the element `#submit-spinner`, filled in with a valid
record. -/
def noSpinnerPage : Page :=
  { mkPage "A" "B" "a@b.com" "" "hi" with submitSpinner := none }

/-! ## Theorems: ThemeManager -/

open ThemeManager

theorem jsTruthy_dark : jsTruthy (some "dark") = true := by decide

theorem jsTruthy_light : jsTruthy (some "light") = true := by decide

/-- C1: for a stored preference among unset, "light", "dark" and either OS
signal, after `loadSavedTheme` the `dark` class is present exactly when the
stored preference is "dark", or it is unset and the OS signal reports dark. -/
theorem C1_loadSavedTheme_rule (stored : Option String) (os cls : Bool)
    (h : stored = none ∨ stored = some "light" ∨ stored = some "dark") :
    (loadSavedTheme ⟨stored, os, cls⟩).darkClass = true ↔
      (stored = some "dark" ∨ (stored = none ∧ os = true)) := by
  rcases h with h | h | h <;> subst h <;> cases os <;> cases cls <;> decide

theorem C1_loadSavedTheme_rule_witness :
    ((loadSavedTheme ⟨none, true, false⟩).darkClass = true ↔
      ((none : Option String) = some "dark" ∨ ((none : Option String) = none ∧ true = true))) ∧
    ((loadSavedTheme ⟨some "light", true, true⟩).darkClass = true ↔
      (some "light" = some "dark" ∨ (some "light" = none ∧ true = true))) :=
  ⟨C1_loadSavedTheme_rule none true false (Or.inl rfl),
   C1_loadSavedTheme_rule (some "light") true true (Or.inr (Or.inl rfl))⟩

/-- C2: `toggleTheme` inverts the presence of the `dark` class, whatever the
stored preference and the OS signal are. -/
theorem C2_toggleTheme_inverts (s : ThemeState) :
    (toggleTheme s).darkClass = !s.darkClass := by
  cases h : s.darkClass <;> simp [toggleTheme, setDarkTheme, setLightTheme, h]


theorem onSystemThemeChange_of_truthy (m : Bool) (s : ThemeState)
    (h : jsTruthy s.storage = true) :
    onSystemThemeChange m s = { s with prefersDark := m } := by
  simp [onSystemThemeChange, h]

theorem onSystemThemeChanges_of_truthy (events : List Bool) (s : ThemeState)
    (h : jsTruthy s.storage = true) :
    (onSystemThemeChanges events s).darkClass = s.darkClass ∧
      (onSystemThemeChanges events s).storage = s.storage := by
  induction events generalizing s with
  | nil => exact ⟨rfl, rfl⟩
  | cons m ms ih =>
    have hstep : onSystemThemeChanges (m :: ms) s =
        onSystemThemeChanges ms (onSystemThemeChange m s) := rfl
    rw [hstep, onSystemThemeChange_of_truthy m s h]
    exact ih { s with prefersDark := m } h

theorem toggleTheme_storage_truthy (s : ThemeState) :
    jsTruthy (toggleTheme s).storage = true := by
  cases h : s.darkClass
  · simp [toggleTheme, setDarkTheme, h, jsTruthy_dark]
  · simp [toggleTheme, setLightTheme, h, jsTruthy_light]

/-- C3: after one `toggleTheme`, any finite sequence of OS colour-scheme
change events handled by the `change` listener leaves the presence of the
`dark` class and the stored preference as they were right after the toggle. -/
theorem C3_os_changes_ignored_after_toggle (s : ThemeState) (events : List Bool) :
    (onSystemThemeChanges events (toggleTheme s)).darkClass = (toggleTheme s).darkClass ∧
      (onSystemThemeChanges events (toggleTheme s)).storage = (toggleTheme s).storage :=
  onSystemThemeChanges_of_truthy events (toggleTheme s) (toggleTheme_storage_truthy s)

/-- C4 (the code at the failing input): with no stored preference, the
`change` listener handling one OS event that reports dark stores "dark" under
the key; the next OS event, reporting light, is then ignored and the `dark`
class stays although the preference was never toggled.  The sibling path
`loadSavedTheme` applies the same OS signal and leaves the preference unset. -/
theorem C4_os_change_writes_preference :
    (onSystemThemeChange true ⟨none, false, false⟩).storage = some "dark" ∧
      onSystemThemeChanges [true, false] ⟨none, false, false⟩ = ⟨some "dark", false, true⟩ ∧
      loadSavedTheme ⟨none, true, false⟩ = ⟨none, true, true⟩ := by
  decide

/-- C5: after `toggleTheme` the stored preference is "dark" when the `dark`
class is now present and "light" otherwise, whatever was stored before, and a
later `loadSavedTheme`, under either OS signal and from either state of the
class, gives the same presence of the `dark` class as right after the toggle. -/
theorem C5_toggle_persists_and_overrides (s : ThemeState) :
    (toggleTheme s).storage = some (if (toggleTheme s).darkClass then "dark" else "light") ∧
      ∀ os cls : Bool,
        (loadSavedTheme { toggleTheme s with prefersDark := os, darkClass := cls }).darkClass =
          (toggleTheme s).darkClass := by
  cases h : s.darkClass
  · refine ⟨by simp [toggleTheme, setDarkTheme, h], fun os cls => ?_⟩
    simp [toggleTheme, setDarkTheme, h, loadSavedTheme, jsTruthy_dark]
  · refine ⟨by simp [toggleTheme, setLightTheme, h], fun os cls => ?_⟩
    simp [toggleTheme, setLightTheme, h, loadSavedTheme, jsTruthy_light]

/-! ## Theorems: contact form -/

theorem formDataGet_eq_contents (name : String) (p : Page) :
    formDataGet name p =
      ((contents p.fields).find? (fun c => c.1 == name)).map (·.2) := by
  unfold formDataGet contents
  induction p.fields with
  | nil => rfl
  | cons f fs ih =>
    by_cases h : (f.name == name) = true
    · simp [List.find?, h]
    · simp only [Bool.not_eq_true] at h
      simpa [List.find?, h] using ih

theorem formDataGet_congr (name : String) {p q : Page}
    (h : contents q.fields = contents p.fields) :
    formDataGet name q = formDataGet name p := by
  rw [formDataGet_eq_contents, formDataGet_eq_contents, h]

theorem querySelectorByName_spec (name : String) (fs : List Field) :
    match querySelectorByName name fs with
    | none => fs.find? (fun f => f.name == name) = none
    | some i => ∃ f, fs.get? i = some f ∧ fs.find? (fun f => f.name == name) = some f := by
  induction fs with
  | nil => simp [querySelectorByName]
  | cons f fs ih =>
    by_cases h : (f.name == name) = true
    · simp [querySelectorByName, h, List.find?]
    · simp only [Bool.not_eq_true] at h
      cases hq : querySelectorByName name fs with
      | none =>
        rw [hq] at ih
        simpa [querySelectorByName, h, hq, List.find?] using ih
      | some i =>
        rw [hq] at ih
        simpa [querySelectorByName, h, hq, List.find?] using ih

theorem contents_modify_redBorder (fs : List Field) (i : Nat) (b : Bool) :
    contents (fs.modify (fun f => { f with redBorder := b }) i) = contents fs := by
  unfold contents
  induction fs generalizing i with
  | nil => simp
  | cons f fs ih =>
    cases i with
    | zero => simp
    | succ i => simpa using ih i

theorem contents_map_redBorder (fs : List Field) (b : Bool) :
    contents (fs.map (fun f => { f with redBorder := b })) = contents fs := by
  unfold contents
  simp [List.map_map, Function.comp_def]

theorem ValidationFrame.refl (p : Page) : ValidationFrame p p :=
  ⟨rfl, ⟨[], rfl, by simp⟩, rfl, rfl, rfl, rfl, rfl⟩

theorem ValidationFrame.trans {p q r : Page} (h₁ : ValidationFrame p q)
    (h₂ : ValidationFrame q r) : ValidationFrame p r := by
  obtain ⟨c₁, ⟨v₁, hv₁, e₁⟩, a₁, b₁, t₁, s₁, n₁⟩ := h₁
  obtain ⟨c₂, ⟨v₂, hv₂, e₂⟩, a₂, b₂, t₂, s₂, n₂⟩ := h₂
  refine ⟨c₂.trans c₁, ⟨v₁ ++ v₂, ?_, ?_⟩, a₂.trans a₁, b₂.trans b₁, t₂.trans t₁,
    s₂.trans s₁, n₂.trans n₁⟩
  · simp [hv₁, hv₂]
  · rw [e₂, e₁, List.append_assoc]

theorem showFieldError_frame (i : Nat) (message : String) (p : Page) :
    ValidationFrame p (showFieldError i message p) := by
  unfold showFieldError
  cases h : p.fields.get? i with
  | none => exact ValidationFrame.refl p
  | some field =>
    exact ⟨contents_modify_redBorder p.fields i true,
      ⟨[Call.showFieldError i message], rfl, rfl⟩, rfl, rfl, rfl, rfl, rfl⟩

theorem clearValidationStates_frame (p : Page) :
    ValidationFrame p (clearValidationStates p) :=
  ⟨contents_map_redBorder p.fields false, ⟨[Call.clearValidationStates], rfl, rfl⟩,
    rfl, rfl, rfl, rfl, rfl⟩

theorem validateRequiredField_spec (acc : Bool × Page) (fieldName : String) :
    (validateRequiredField acc fieldName).1 =
        (acc.1 && requiredFieldOk fieldName (formDataGet fieldName acc.2)) ∧
      ValidationFrame acc.2 (validateRequiredField acc fieldName).2 := by
  have hq := querySelectorByName_spec fieldName acc.2.fields
  unfold validateRequiredField
  cases hi : querySelectorByName fieldName acc.2.fields with
  | none =>
    rw [hi] at hq
    simp [formDataGet, hq, requiredFieldOk, ValidationFrame.refl]
  | some i =>
    rw [hi] at hq
    obtain ⟨f, hget, hfind⟩ := hq
    simp only [hget, formDataGet, hfind, Option.map_some', requiredFieldOk]
    by_cases h₁ : jsTruthy (some (jsTrim f.value)) = true
    · by_cases h₂ : (fieldName == "email" && !isValidEmail f.value) = true
      · simp [h₁, h₂, showFieldError_frame]
      · simp only [Bool.not_eq_true] at h₂
        simp [h₁, h₂, ValidationFrame.refl]
    · simp only [Bool.not_eq_true] at h₁
      simp [h₁, showFieldError_frame]

theorem foldl_validateRequiredField_spec (names : List String) (acc : Bool × Page) :
    (names.foldl validateRequiredField acc).1 =
        (acc.1 && names.all (fun n => requiredFieldOk n (formDataGet n acc.2))) ∧
      ValidationFrame acc.2 (names.foldl validateRequiredField acc).2 := by
  induction names generalizing acc with
  | nil => simp [ValidationFrame.refl]
  | cons n ns ih =>
    obtain ⟨h₁, h₂⟩ := validateRequiredField_spec acc n
    obtain ⟨ih₁, ih₂⟩ := ih (validateRequiredField acc n)
    refine ⟨?_, h₂.trans ih₂⟩
    have hcongr : ∀ m, formDataGet m (validateRequiredField acc n).2 = formDataGet m acc.2 :=
      fun m => formDataGet_congr m h₂.1
    simp only [List.foldl_cons, ih₁, h₁, hcongr, List.all_cons, Bool.and_assoc]

theorem validateForm_spec (p : Page) :
    (validateForm p).1 =
        requiredFields.all (fun n => requiredFieldOk n (formDataGet n p)) ∧
      ValidationFrame p (validateForm p).2 := by
  obtain ⟨h₁, h₂⟩ := foldl_validateRequiredField_spec requiredFields (true, clearValidationStates p)
  have hc := clearValidationStates_frame p
  have hcongr : ∀ m, formDataGet m (clearValidationStates p) = formDataGet m p :=
    fun m => formDataGet_congr m hc.1
  refine ⟨?_, hc.trans h₂⟩
  unfold validateForm
  rw [h₁]
  simp only [Bool.true_and, hcongr]

theorem jsTruthy_some (s : String) : jsTruthy (some s) = true ↔ s ≠ "" := by
  simp [jsTruthy]

theorem formDataGet_setFieldValue (name other v : String) (p : Page) (h : name ≠ other) :
    formDataGet name (setFieldValue other v p) = formDataGet name p := by
  unfold formDataGet setFieldValue
  induction p.fields with
  | nil => rfl
  | cons f fs ih =>
    simp only [List.map_cons, List.find?]
    by_cases ho : (f.name == other) = true
    · have hn : (f.name == name) = false := by
        rw [beq_iff_eq] at ho
        rw [beq_eq_false_iff_ne]
        intro hfn
        exact h (hfn.symm.trans ho)
      simpa [ho, hn] using ih
    · simp only [Bool.not_eq_true] at ho
      simp only [ho]
      by_cases hn : (f.name == name) = true
      · simp [hn]
      · simp only [Bool.not_eq_true] at hn
        simpa [hn] using ih

/-- C6: when the form has controls named firstName, lastName, email and
message, `validateForm` returns true exactly when the four values are
non-empty after trimming and the email value passes `isValidEmail`; changing
the subject does not change the result; the record with an empty firstName is
rejected with the required-field error on the firstName control, and the one
with the email "not-an-email" with the invalid-email error on the email
control. -/
theorem C6_validateForm_accepts_iff (p : Page) (firstName lastName email message : String)
    (hf : formDataGet "firstName" p = some firstName)
    (hl : formDataGet "lastName" p = some lastName)
    (he : formDataGet "email" p = some email)
    (hm : formDataGet "message" p = some message) :
    ((validateForm p).1 = true ↔
        (jsTrim firstName ≠ "" ∧ jsTrim lastName ≠ "" ∧ jsTrim email ≠ "" ∧
          jsTrim message ≠ "" ∧ isValidEmail email = true)) ∧
      (∀ v : String, (validateForm (setFieldValue "subject" v p)).1 = (validateForm p).1) ∧
      (∀ subject : String,
        (validateForm (mkPage "" "A" "a@b.com" subject "hi")).1 = false ∧
        (validateForm (mkPage "" "A" "a@b.com" subject "hi")).2.calls =
          [Call.clearValidationStates, Call.showFieldError 0 "This field is required"] ∧
        (validateForm (mkPage "" "A" "a@b.com" subject "hi")).2.errorMessages =
          [(0, "This field is required")] ∧
        (validateForm (mkPage "" "A" "a@b.com" subject "hi")).2.fields.map
          (fun f => (f.name, f.redBorder)) =
          [("firstName", true), ("lastName", false), ("email", false), ("subject", false),
           ("message", false)]) ∧
      (∀ subject : String,
        (validateForm (mkPage "A" "B" "not-an-email" subject "hi")).1 = false ∧
        (validateForm (mkPage "A" "B" "not-an-email" subject "hi")).2.calls =
          [Call.clearValidationStates,
           Call.showFieldError 2 "Please enter a valid email address"] ∧
        (validateForm (mkPage "A" "B" "not-an-email" subject "hi")).2.errorMessages =
          [(2, "Please enter a valid email address")] ∧
        (validateForm (mkPage "A" "B" "not-an-email" subject "hi")).2.fields.map
          (fun f => (f.name, f.redBorder)) =
          [("firstName", false), ("lastName", false), ("email", true), ("subject", false),
           ("message", false)]) := by
  refine ⟨?_, ?_, fun subject => ⟨rfl, rfl, rfl, rfl⟩, fun subject => ⟨rfl, rfl, rfl, rfl⟩⟩
  · rw [(validateForm_spec p).1]
    have e₁ : ("firstName" == "email") = false := by decide
    have e₂ : ("lastName" == "email") = false := by decide
    have e₃ : ("message" == "email") = false := by decide
    simp only [requiredFields, List.all_cons, List.all_nil, hf, hl, he, hm, requiredFieldOk,
      e₁, e₂, e₃, Bool.false_and, Bool.not_false, Bool.and_true, beq_self_eq_true,
      Bool.true_and, Bool.not_not, Bool.and_eq_true, jsTruthy_some]
    tauto
  · intro v
    rw [(validateForm_spec p).1, (validateForm_spec (setFieldValue "subject" v p)).1]
    have h₁ := formDataGet_setFieldValue "firstName" "subject" v p (by decide)
    have h₂ := formDataGet_setFieldValue "lastName" "subject" v p (by decide)
    have h₃ := formDataGet_setFieldValue "email" "subject" v p (by decide)
    have h₄ := formDataGet_setFieldValue "message" "subject" v p (by decide)
    simp only [requiredFields, List.all_cons, List.all_nil, h₁, h₂, h₃, h₄]

theorem C6_validateForm_accepts_iff_witness :
    ((validateForm (mkPage "A" "B" "a@b.com" "" "hi")).1 = true ↔
        (jsTrim "A" ≠ "" ∧ jsTrim "B" ≠ "" ∧ jsTrim "a@b.com" ≠ "" ∧
          jsTrim "hi" ≠ "" ∧ isValidEmail "a@b.com" = true)) :=
  (C6_validateForm_accepts_iff (mkPage "A" "B" "a@b.com" "" "hi") "A" "B" "a@b.com" "hi"
    rfl rfl rfl rfl).1

/-! ## Theorems: isValidEmail -/

theorem regexTest_nil (s : List Char) : regexTest [] s = true ↔ s = [] := by
  cases s <;> simp [regexTest]

theorem regexTest_one (p : Char → Bool) (ts : List RegexTerm) (s : List Char) :
    regexTest (⟨p, .one⟩ :: ts) s = true ↔
      ∃ c t, s = c :: t ∧ p c = true ∧ regexTest ts t = true := by
  cases s with
  | nil => simp [regexTest]
  | cons c cs =>
    simp only [regexTest, Bool.and_eq_true]
    constructor
    · rintro ⟨hc, ht⟩
      exact ⟨c, cs, rfl, hc, ht⟩
    · rintro ⟨c', t, hs, hc, ht⟩
      simp only [List.cons.injEq] at hs
      obtain ⟨rfl, rfl⟩ := hs
      exact ⟨hc, ht⟩

theorem regexTest_plus (p : Char → Bool) (ts : List RegexTerm) (s : List Char) :
    regexTest (⟨p, .plus⟩ :: ts) s = true ↔
      ∃ a t, a ≠ [] ∧ (∀ x ∈ a, p x = true) ∧ s = a ++ t ∧ regexTest ts t = true := by
  induction s with
  | nil =>
    simp only [regexTest, Bool.false_eq_true, false_iff, not_exists, not_and]
    intro a t ha _ hs
    cases a with
    | nil => exact absurd rfl ha
    | cons x xs => simp at hs
  | cons c cs ih =>
    simp only [regexTest, Bool.and_eq_true, Bool.or_eq_true]
    constructor
    · rintro ⟨hc, h | h⟩
      · obtain ⟨a, t, _, hall, hs, ht⟩ := ih.mp h
        refine ⟨c :: a, t, by simp, ?_, by simp [hs], ht⟩
        intro x hx
        rcases List.mem_cons.mp hx with rfl | hx
        · exact hc
        · exact hall x hx
      · exact ⟨[c], cs, by simp, by simpa using hc, rfl, h⟩
    · rintro ⟨a, t, ha, hall, hs, ht⟩
      cases a with
      | nil => exact absurd rfl ha
      | cons x xs =>
        simp only [List.cons_append, List.cons.injEq] at hs
        obtain ⟨rfl, rfl⟩ := hs
        refine ⟨hall c (by simp), ?_⟩
        cases xs with
        | nil => exact Or.inr (by simpa using ht)
        | cons y ys =>
          exact Or.inl (ih.mpr ⟨y :: ys, t, by simp,
            fun z hz => hall z (List.mem_cons_of_mem _ hz), rfl, ht⟩)

theorem notSpaceNotAt_iff (x : Char) :
    notSpaceNotAt x = true ↔ (isJsWhiteSpace x = false ∧ x ≠ '@') := by
  simp [notSpaceNotAt]

theorem isValidEmail_iff_pattern (s : String) :
    isValidEmail s = true ↔ MatchesEmailPattern s.toList := by
  unfold isValidEmail emailRegex MatchesEmailPattern
  rw [regexTest_plus]
  constructor
  · rintro ⟨a, t, ha, hall, hs, ht⟩
    obtain ⟨c₁, t₁, rfl, hc₁, ht₁⟩ := (regexTest_one _ _ _).mp ht
    obtain ⟨b, t₂, hb, hallb, rfl, ht₂⟩ := (regexTest_plus _ _ _).mp ht₁
    obtain ⟨c₂, t₃, rfl, hc₂, ht₃⟩ := (regexTest_one _ _ _).mp ht₂
    obtain ⟨c, t₄, hc, hallc, rfl, ht₄⟩ := (regexTest_plus _ _ _).mp ht₃
    obtain rfl := (regexTest_nil _).mp ht₄
    have e₁ : c₁ = '@' := by simpa using hc₁
    have e₂ : c₂ = '.' := by simpa using hc₂
    subst e₁ e₂
    refine ⟨a, b, c, by simpa using hs, ha, hb, hc, ?_, ?_, ?_⟩
    · exact fun x hx => (notSpaceNotAt_iff x).mp (hall x hx)
    · exact fun x hx => (notSpaceNotAt_iff x).mp (hallb x hx)
    · exact fun x hx => (notSpaceNotAt_iff x).mp (hallc x hx)
  · rintro ⟨a, b, c, hs, ha, hb, hc, hall, hallb, hallc⟩
    refine ⟨a, '@' :: (b ++ '.' :: c), ha, fun x hx => (notSpaceNotAt_iff x).mpr (hall x hx),
      hs, ?_⟩
    refine (regexTest_one _ _ _).mpr ⟨'@', b ++ '.' :: c, rfl, by simp, ?_⟩
    refine (regexTest_plus _ _ _).mpr
      ⟨b, '.' :: c, hb, fun x hx => (notSpaceNotAt_iff x).mpr (hallb x hx), rfl, ?_⟩
    refine (regexTest_one _ _ _).mpr ⟨'.', c, rfl, by simp, ?_⟩
    exact (regexTest_plus _ _ _).mpr
      ⟨c, [], hc, fun x hx => (notSpaceNotAt_iff x).mpr (hallc x hx), by simp,
        (regexTest_nil _).mpr rfl⟩

theorem split_at_first_at (s : List Char) (h : '@' ∈ s) :
    s = beforeAt s ++ '@' :: afterAt s ∧ '@' ∉ beforeAt s := by
  induction s with
  | nil => simp at h
  | cons x xs ih =>
    by_cases hx : x = '@'
    · subst hx
      simp [beforeAt, afterAt]
    · have hmem : '@' ∈ xs := by
        rcases List.mem_cons.mp h with h | h
        · exact absurd h.symm hx
        · exact h
      obtain ⟨ih₁, ih₂⟩ := ih hmem
      have hb : beforeAt (x :: xs) = x :: beforeAt xs := by simp [beforeAt, hx]
      have ha : afterAt (x :: xs) = afterAt xs := by simp [afterAt, hx]
      rw [hb, ha]
      refine ⟨by simpa using ih₁, ?_⟩
      intro hmem'
      rcases List.mem_cons.mp hmem' with h' | h'
      · exact hx h'.symm
      · exact ih₂ h'

theorem beforeAt_afterAt_append (a rest : List Char) (h : '@' ∉ a) :
    beforeAt (a ++ '@' :: rest) = a ∧ afterAt (a ++ '@' :: rest) = rest := by
  induction a with
  | nil => simp [beforeAt, afterAt]
  | cons x xs ih =>
    have hx : x ≠ '@' := fun e => h (by simp [e])
    have hxs : '@' ∉ xs := fun e => h (List.mem_cons_of_mem _ e)
    obtain ⟨ih₁, ih₂⟩ := ih hxs
    constructor
    · have : beforeAt (x :: xs ++ '@' :: rest) = x :: beforeAt (xs ++ '@' :: rest) := by
        simp [beforeAt, hx]
      rw [this, ih₁]
    · have : afterAt (x :: xs ++ '@' :: rest) = afterAt (xs ++ '@' :: rest) := by
        simp [afterAt, hx]
      rw [this, ih₂]

theorem isJsWhiteSpace_at : isJsWhiteSpace '@' = false := by decide

theorem isJsWhiteSpace_dot : isJsWhiteSpace '.' = false := by decide

theorem pattern_imp_shape (s : List Char) (h : MatchesEmailPattern s) : EmailShape s := by
  obtain ⟨a, b, c, hs, ha, hb, hc, hall, hallb, hallc⟩ := h
  have na : '@' ∉ a := fun hm => (hall _ hm).2 rfl
  have nb : '@' ∉ b := fun hm => (hallb _ hm).2 rfl
  have nc : '@' ∉ c := fun hm => (hallc _ hm).2 rfl
  obtain ⟨hbefore, hafter⟩ := beforeAt_afterAt_append a (b ++ '.' :: c) na
  rw [← hs] at hbefore hafter
  refine ⟨?_, ?_, by rw [hbefore]; exact ha, b.length, ?_, ?_, ?_⟩
  · intro x hx
    rw [hs] at hx
    simp only [List.mem_append, List.mem_cons] at hx
    rcases hx with hx | rfl | hx | rfl | hx
    · exact (hall x hx).1
    · exact isJsWhiteSpace_at
    · exact (hallb x hx).1
    · exact isJsWhiteSpace_dot
    · exact (hallc x hx).1
  · have hdot : ('.' == '@') = false := by decide
    rw [hs]
    simp [List.count_append, List.count_cons, List.count_eq_zero_of_not_mem na,
      List.count_eq_zero_of_not_mem nb, List.count_eq_zero_of_not_mem nc, hdot]
  · exact List.length_pos.mpr hb
  · rw [hafter]
    have := List.length_pos.mpr hc
    simp only [List.length_append, List.length_cons]
    omega
  · rw [hafter, List.getElem?_append_right (Nat.le_refl _)]
    simp

theorem shape_imp_pattern (s : List Char) (h : EmailShape s) : MatchesEmailPattern s := by
  obtain ⟨hws, hcount, hbefore, i, hi0, hi1, hget⟩ := h
  have hmem : '@' ∈ s := List.count_pos_iff.mp (by omega)
  obtain ⟨hsplit, na⟩ := split_at_first_at s hmem
  have hcount' : (beforeAt s ++ '@' :: afterAt s).count '@' = 1 := by rw [← hsplit]; exact hcount
  have nr : '@' ∉ afterAt s := by
    intro hm
    have := List.count_pos_iff.mpr hm
    simp [List.count_append, List.count_cons] at hcount'
    omega
  have hlt : i < (afterAt s).length := by omega
  have hgi : (afterAt s)[i] = '.' := by
    rw [List.getElem?_eq_getElem hlt] at hget
    simpa using hget
  have hr : afterAt s = (afterAt s).take i ++ '.' :: (afterAt s).drop (i + 1) := by
    rw [← hgi, ← List.drop_eq_getElem_cons hlt, List.take_append_drop]
  have hmem_s : ∀ x, x ∈ beforeAt s ∨ x ∈ afterAt s → x ∈ s := by
    intro x hx
    rw [hsplit]
    rcases hx with hx | hx
    · exact List.mem_append_left _ hx
    · exact List.mem_append_right _ (List.mem_cons_of_mem _ hx)
  refine ⟨beforeAt s, (afterAt s).take i, (afterAt s).drop (i + 1), ?_, hbefore, ?_, ?_,
    ?_, ?_, ?_⟩
  · rw [← hr]
    exact hsplit
  · intro hnil
    have := congrArg List.length hnil
    simp only [List.length_take, List.length_nil] at this
    omega
  · intro hnil
    have := congrArg List.length hnil
    simp only [List.length_drop, List.length_nil] at this
    omega
  · intro x hx
    exact ⟨hws x (hmem_s x (Or.inl hx)), fun e => na (e ▸ hx)⟩
  · intro x hx
    have hx' := List.mem_of_mem_take hx
    exact ⟨hws x (hmem_s x (Or.inr hx')), fun e => nr (e ▸ hx')⟩
  · intro x hx
    have hx' := List.mem_of_mem_drop hx
    exact ⟨hws x (hmem_s x (Or.inr hx')), fun e => nr (e ▸ hx')⟩

/-- C7: `isValidEmail s` is true exactly when the whole of `s` matches
`<non-whitespace-non-@>+ '@' <non-whitespace-non-@>+ '.' <non-whitespace-non-@>+`,
and exactly when `s` has no white space, exactly one `@`, at least one
character before it, and after it a `.` that is neither the first nor the last
character of that part. -/
theorem C7_isValidEmail_iff (s : String) :
    (isValidEmail s = true ↔ MatchesEmailPattern s.toList) ∧
      (isValidEmail s = true ↔ EmailShape s.toList) :=
  ⟨isValidEmail_iff_pattern s,
    (isValidEmail_iff_pattern s).trans
      ⟨pattern_imp_shape s.toList, shape_imp_pattern s.toList⟩⟩

/-! ## Theorems: submission -/

theorem sendCount_append (l₁ l₂ : List Call) :
    sendCount (l₁ ++ l₂) = sendCount l₁ + sendCount l₂ := by
  simp [sendCount]

theorem sendCount_of_validation (v : List Call) (h : v.all isValidationCall = true) :
    sendCount v = 0 := by
  induction v with
  | nil => rfl
  | cons c cs ih =>
    simp only [List.all_cons, Bool.and_eq_true] at h
    have hcs := ih h.2
    cases c <;> simp_all [sendCount, isValidationCall]

theorem templateParams_congr {p q : Page} (h : contents q.fields = contents p.fields) :
    templateParams q = templateParams p := by
  simp only [templateParams, formDataGet_congr _ h]

theorem setLoadingState_calls (b : Bool) (p : Page) :
    (setLoadingState b p).calls = p.calls ++ [Call.setLoadingState b] := by
  obtain ⟨fs, es, sb, st, ss, ns, n, cs⟩ := p
  cases sb <;> cases st <;> cases ss <;> cases b <;> rfl

theorem setLoadingState_fields (b : Bool) (p : Page) :
    (setLoadingState b p).fields = p.fields := by
  obtain ⟨fs, es, sb, st, ss, ns, n, cs⟩ := p
  cases sb <;> cases st <;> cases ss <;> cases b <;> rfl

theorem setLoadingState_pending (b : Bool) (p : Page) :
    (setLoadingState b p).pending = p.pending := by
  obtain ⟨fs, es, sb, st, ss, ns, n, cs⟩ := p
  cases sb <;> cases st <;> cases ss <;> cases b <;> rfl

theorem setLoadingState_notifications (b : Bool) (p : Page) :
    (setLoadingState b p).notifications = p.notifications := by
  obtain ⟨fs, es, sb, st, ss, ns, n, cs⟩ := p
  cases sb <;> cases st <;> cases ss <;> cases b <;> rfl

theorem handleFormSubmit_rejected (p : Page) (h : (validateForm p).1 = false) :
    handleFormSubmit p = (validateForm p).2 := by
  simp [handleFormSubmit, h]

theorem handleFormSubmit_accepted (p : Page) (h : (validateForm p).1 = true) :
    handleFormSubmit p =
      emailjsSend (templateParams p) (setLoadingState true (validateForm p).2) := by
  have hc : contents (setLoadingState true (validateForm p).2).fields = contents p.fields := by
    rw [setLoadingState_fields]
    exact (validateForm_spec p).2.1
  simp [handleFormSubmit, h, templateParams_congr hc]

theorem handleFormSubmit_calls (p : Page) :
    ∃ v : List Call, v.all isValidationCall = true ∧
      (validateForm p).2.calls = p.calls ++ v ∧
      (handleFormSubmit p).calls = p.calls ++ v ++
        (if (validateForm p).1 = true then
          [Call.setLoadingState true, Call.emailjsSend SERVICE_ID TEMPLATE_ID (templateParams p)]
        else []) := by
  obtain ⟨v, hv, hcalls⟩ := (validateForm_spec p).2.2.1
  refine ⟨v, hv, hcalls, ?_⟩
  cases h : (validateForm p).1
  · rw [handleFormSubmit_rejected p h, hcalls]
    simp
  · rw [handleFormSubmit_accepted p h]
    simp [emailjsSend, setLoadingState_calls, hcalls]

theorem handleFormSubmit_pending (p : Page) :
    (handleFormSubmit p).pending =
      p.pending + (if (validateForm p).1 = true then 1 else 0) := by
  have hp := (validateForm_spec p).2.2.2.1
  cases h : (validateForm p).1
  · rw [handleFormSubmit_rejected p h, hp]
    simp
  · rw [handleFormSubmit_accepted p h]
    simp [emailjsSend, setLoadingState_pending, hp]

theorem onFulfilled_calls (q : Page) :
    (onFulfilled q).calls = q.calls ++
      [Call.showNotification "Message sent successfully! We'll get back to you soon." "success",
       Call.formReset, Call.clearValidationStates] := by
  simp [onFulfilled, clearValidationStates, formReset, showNotification]

theorem onRejected_calls (status : Option Int) (q : Page) :
    (onRejected status q).calls =
      q.calls ++ [Call.showNotification (errorMessage status) "error"] := rfl

theorem settle_calls_sendCount (o : Outcome) (q : Page) :
    sendCount (settle o q).calls = sendCount q.calls := by
  cases o with
  | fulfilled =>
    simp only [settle, onFinally, setLoadingState_calls, onFulfilled_calls, sendCount_append]
    rfl
  | rejected status =>
    simp only [settle, onFinally, setLoadingState_calls, onRejected_calls, sendCount_append]
    rfl

/-- C8: one run of `handleFormSubmit` extends the trace by the validation
calls of `validateForm` (none of them a send) followed, when the form is
accepted, by `setLoadingState(true)` and one call to `emailjs.send`, and by
nothing more when it is rejected; so it makes one send when accepted and none
when rejected, and the send comes after validation has finished.  The
settlement handlers add no call to `emailjs.send`. -/
theorem C8_one_send_per_accepted_submit (p : Page) :
    (∃ v : List Call, v.all isValidationCall = true ∧
      (validateForm p).2.calls = p.calls ++ v ∧
      (handleFormSubmit p).calls = p.calls ++ v ++
        (if (validateForm p).1 = true then
          [Call.setLoadingState true, Call.emailjsSend SERVICE_ID TEMPLATE_ID (templateParams p)]
        else [])) ∧
      sendCount (handleFormSubmit p).calls =
        sendCount p.calls + (if (validateForm p).1 = true then 1 else 0) ∧
      (handleFormSubmit p).pending =
        p.pending + (if (validateForm p).1 = true then 1 else 0) ∧
      (∀ (o : Outcome) (q : Page), sendCount (settle o q).calls = sendCount q.calls) ∧
      (∀ q : Page, sendCount (onFulfilled q).calls = sendCount q.calls) ∧
      (∀ (status : Option Int) (q : Page),
        sendCount (onRejected status q).calls = sendCount q.calls) ∧
      (∀ q : Page, sendCount (onFinally q).calls = sendCount q.calls) := by
  refine ⟨handleFormSubmit_calls p, ?_, handleFormSubmit_pending p,
    fun o q => settle_calls_sendCount o q, ?_, ?_, ?_⟩
  · obtain ⟨v, hv, _, hcalls⟩ := handleFormSubmit_calls p
    rw [hcalls, sendCount_append, sendCount_append, sendCount_of_validation v hv]
    cases (validateForm p).1 <;> rfl
  · intro q
    rw [onFulfilled_calls, sendCount_append]
    rfl
  · intro status q
    rw [onRejected_calls, sendCount_append]
    rfl
  · intro q
    rw [onFinally, setLoadingState_calls, sendCount_append]
    rfl

/-! ## Theorems: the in-flight guard -/

theorem setLoadingState_controls (b : Bool) (p : Page) (btn : SubmitBtn) (txt : String)
    (sp : Bool) (hb : p.submitBtn = some btn) (ht : p.submitText = some txt)
    (hs : p.submitSpinner = some sp) :
    (setLoadingState b p).submitBtn = some { btn with disabled := b, opacity75 := b } ∧
      (setLoadingState b p).submitText = some (if b then "Sending..." else "Send Message") ∧
      (setLoadingState b p).submitSpinner = some (!b) := by
  obtain ⟨fs, es, sb, st, ss, ns, n, cs⟩ := p
  simp only at hb ht hs
  subst hb ht hs
  cases b <;> exact ⟨rfl, rfl, rfl⟩

theorem InFlightGuard.congr {p q : Page} (h : InFlightGuard p) (hn : q.pending = p.pending)
    (hb : q.submitBtn = p.submitBtn) (ht : q.submitText = p.submitText)
    (hs : q.submitSpinner = p.submitSpinner) : InFlightGuard q := by
  obtain ⟨btn, txt, sp, h₁, h₂, h₃, h₄⟩ := h
  exact ⟨btn, txt, sp, hb.trans h₁, ht.trans h₂, hs.trans h₃, by rw [hn]; exact h₄⟩

theorem InFlightGuard.of_frame {p q : Page} (h : InFlightGuard p) (hf : ValidationFrame p q) :
    InFlightGuard q :=
  h.congr hf.2.2.1 hf.2.2.2.1 hf.2.2.2.2.1 hf.2.2.2.2.2.1

theorem InFlightGuard.of_idle {p : Page} (h : p.Idle) : InFlightGuard p := by
  obtain ⟨hn, he, ht, hs⟩ := h
  obtain ⟨txt, htxt⟩ := Option.isSome_iff_exists.mp ht
  obtain ⟨sp, hsp⟩ := Option.isSome_iff_exists.mp hs
  cases hb : p.submitBtn with
  | none => simp [submitEnabled, hb] at he
  | some btn =>
    refine ⟨btn, txt, sp, hb, htxt, hsp, Or.inl ⟨hn, ?_⟩⟩
    simpa [submitEnabled, hb] using he

theorem InFlightGuard.submit {p : Page} (h : InFlightGuard p) (he : submitEnabled p = true) :
    InFlightGuard (handleFormSubmit p) := by
  cases hv : (validateForm p).1
  · rw [handleFormSubmit_rejected p hv]
    exact h.of_frame (validateForm_spec p).2
  · have hframe := h.of_frame (validateForm_spec p).2
    obtain ⟨btn, txt, sp, hb, ht, hs, hcase⟩ := hframe
    have hb₀ : p.submitBtn = some btn := by rw [← (validateForm_spec p).2.2.2.2.1]; exact hb
    have hdis : btn.disabled = false := by simpa [submitEnabled, hb₀] using he
    have hpend : (validateForm p).2.pending = 0 := by
      rcases hcase with ⟨h0, _⟩ | ⟨_, h1⟩
      · exact h0
      · rw [hdis] at h1
        cases h1
    obtain ⟨c₁, c₂, c₃⟩ := setLoadingState_controls true (validateForm p).2 btn txt sp hb ht hs
    rw [handleFormSubmit_accepted p hv]
    refine ⟨_, _, _, c₁, c₂, c₃, Or.inr ⟨?_, rfl⟩⟩
    simp [emailjsSend, setLoadingState_pending, hpend]

theorem InFlightGuard.settle {p : Page} (h : InFlightGuard p) (o : Outcome)
    (hp : 0 < p.pending) : InFlightGuard (settle o p) := by
  obtain ⟨btn, txt, sp, hb, ht, hs, hcase⟩ := h
  have hone : p.pending = 1 := by
    rcases hcase with ⟨h0, _⟩ | ⟨h1, _⟩
    · omega
    · exact h1
  cases o with
  | fulfilled =>
    obtain ⟨c₁, c₂, c₃⟩ := setLoadingState_controls false
      (onFulfilled { p with pending := p.pending - 1 }) btn txt sp hb ht hs
    refine ⟨_, _, _, c₁, c₂, c₃, Or.inl ⟨?_, rfl⟩⟩
    simp only [Pinwatta.settle, onFinally, setLoadingState_pending]
    simp [onFulfilled, clearValidationStates, formReset, showNotification, hone]
  | rejected status =>
    obtain ⟨c₁, c₂, c₃⟩ := setLoadingState_controls false
      (onRejected status { p with pending := p.pending - 1 }) btn txt sp hb ht hs
    refine ⟨_, _, _, c₁, c₂, c₃, Or.inl ⟨?_, rfl⟩⟩
    simp only [Pinwatta.settle, onFinally, setLoadingState_pending]
    simp [onRejected, showNotification, hone]

theorem InFlightGuard.input {p : Page} (h : InFlightGuard p) (i : Nat) (v : String) :
    InFlightGuard (onInput i v p) := by
  unfold onInput
  cases p.fields.get? i with
  | none => exact h
  | some field => exact h.congr rfl rfl rfl rfl

theorem InFlightGuard.blur {p : Page} (h : InFlightGuard p) (i : Nat) :
    InFlightGuard (validateField i p).2 := by
  unfold validateField
  cases p.fields.get? i with
  | none => exact h
  | some field =>
    simp only
    split
    · exact h.of_frame (showFieldError_frame _ _ _)
    · split
      · exact h.of_frame (showFieldError_frame _ _ _)
      · exact h

theorem InFlightGuard.of_reachable {p₀ p : Page} (h₀ : InFlightGuard p₀)
    (hr : GuardedReachable p₀ p) : InFlightGuard p := by
  induction hr with
  | init => exact h₀
  | step _ hstep ih =>
    cases hstep with
    | submit he => exact ih.submit he
    | settle o hp => exact ih.settle o hp
    | input i v => exact ih.input i v
    | blur i => exact ih.blur i

/-- C9 (as stated, refuted): `handleFormSubmit` does not reject a submit event
that arrives while a send is pending.  From the page with the valid record
A, B, a@b.com, hi, two submit events in a row, with no settlement in between,
reach a state with two sends outstanding. -/
theorem C9_second_submit_sends_again :
    (validateForm (handleFormSubmit (mkPage "A" "B" "a@b.com" "" "hi"))).1 = true ∧
      (handleFormSubmit (mkPage "A" "B" "a@b.com" "" "hi")).pending = 1 ∧
      Reachable (mkPage "A" "B" "a@b.com" "" "hi")
        (handleFormSubmit (handleFormSubmit (mkPage "A" "B" "a@b.com" "" "hi"))) ∧
      (handleFormSubmit (handleFormSubmit (mkPage "A" "B" "a@b.com" "" "hi"))).pending = 2 ∧
      sendCount (handleFormSubmit (handleFormSubmit (mkPage "A" "B" "a@b.com" "" "hi"))).calls
        = 2 :=
  ⟨by decide, by decide,
    Reachable.step (Reachable.step Reachable.init (Step.submit _)) (Step.submit _),
    by decide, by decide⟩

/-- C9 (amended): the guard is the disabled submit button.  From a page that
has the button, its text and its spinner, with the button enabled and nothing
pending, every state reached by steps in which submit events are raised only
while the button is enabled has at most one send outstanding, and the button
is disabled exactly while one is. -/
theorem C9_guarded_at_most_one_pending (p₀ p : Page) (h₀ : p₀.Idle)
    (hr : GuardedReachable p₀ p) :
    p.pending ≤ 1 ∧ (p.pending = 1 ↔ submitEnabled p = false) := by
  obtain ⟨btn, txt, sp, hb, _, _, hcase⟩ := (InFlightGuard.of_idle h₀).of_reachable hr
  rcases hcase with ⟨hn, hd⟩ | ⟨hn, hd⟩
  · simp [hn, submitEnabled, hb, hd]
  · simp [hn, submitEnabled, hb, hd]

theorem C9_guarded_at_most_one_pending_witness :
    (handleFormSubmit (mkPage "A" "B" "a@b.com" "" "hi")).pending ≤ 1 ∧
      ((handleFormSubmit (mkPage "A" "B" "a@b.com" "" "hi")).pending = 1 ↔
        submitEnabled (handleFormSubmit (mkPage "A" "B" "a@b.com" "" "hi")) = false) :=
  C9_guarded_at_most_one_pending (mkPage "A" "B" "a@b.com" "" "hi")
    (handleFormSubmit (mkPage "A" "B" "a@b.com" "" "hi"))
    ⟨rfl, rfl, rfl, rfl⟩
    (GuardedReachable.step GuardedReachable.init (GuardedStep.submit _ rfl))

/-! ## Theorems: failure messages -/

/-- C10: the message built from the error status is the bad-request message
for 400, the unauthorized one for 401, the not-found one for 404, the
rate-limited one for 429 and the unknown one for any other or missing status;
the five messages are pairwise distinct, so a status other than 429 never gets
the rate-limited message; and it is this message that the `catch` handler
shows, as an error notification, when the send is rejected. -/
theorem C10_error_message_by_status :
    errorMessage (some 400) = "Failed to send message. Please check your form data." ∧
      errorMessage (some 401) =
        "Failed to send message. Authentication error - please check your EmailJS configuration." ∧
      errorMessage (some 404) = "Failed to send message. Service or template not found." ∧
      errorMessage (some 429) =
        "Failed to send message. Too many requests. Please try again later." ∧
      (∀ status : Option Int,
        status ≠ some 400 → status ≠ some 401 → status ≠ some 404 → status ≠ some 429 →
          errorMessage status =
            "Failed to send message. Please try again or contact us directly.") ∧
      [errorMessage (some 400), errorMessage (some 401), errorMessage (some 404),
        errorMessage (some 429), errorMessage none].Nodup ∧
      (∀ status : Option Int,
        status ≠ some 429 → errorMessage status ≠ errorMessage (some 429)) ∧
      (∀ (status : Option Int) (p : Page),
        (onRejected status p).notifications =
          p.notifications ++ [(errorMessage status, "error")]) ∧
      (∀ (status : Option Int) (p : Page),
        (settle (Outcome.rejected status) p).notifications =
          p.notifications ++ [(errorMessage status, "error")]) := by
  refine ⟨by decide, by decide, by decide, by decide, ?_, by decide, ?_, fun _ _ => rfl, ?_⟩
  · intro status h₁ h₂ h₃ h₄
    simp [errorMessage, h₁, h₂, h₃, h₄]
  · intro status h
    by_cases h₁ : status = some 400
    · subst h₁; decide
    · by_cases h₂ : status = some 401
      · subst h₂; decide
      · by_cases h₃ : status = some 404
        · subst h₃; decide
        · have hu : errorMessage status =
              "Failed to send message. Please try again or contact us directly." := by
            simp [errorMessage, h₁, h₂, h₃, h]
          rw [hu]
          decide
  · intro status p
    simp only [Pinwatta.settle, onFinally, setLoadingState_notifications]
    rfl

/-! ## Theorems: reset after a successful send -/

theorem removeErrorMessage_inDocumentOrder (parentFirst parent : Nat)
    (msgs : List (Nat × String)) (h : InDocumentOrder msgs) :
    InDocumentOrder (removeErrorMessage parentFirst parent msgs) :=
  List.Pairwise.sublist (List.eraseP_sublist msgs) h

theorem lt_of_mem_dropWhile (k : Nat) (msgs : List (Nat × String))
    (h : InDocumentOrder msgs) :
    ∀ b ∈ msgs.dropWhile (fun m => decide (m.1 ≤ k)), k < b.1 := by
  induction msgs with
  | nil => simp
  | cons a l ih =>
    have hl : InDocumentOrder l := (List.pairwise_cons.mp h).2
    by_cases ha : a.1 ≤ k
    · simpa [List.dropWhile, ha] using ih hl
    · intro b hb
      simp only [List.dropWhile, ha, decide_False] at hb
      rcases List.mem_cons.mp hb with rfl | hb
      · omega
      · have := (List.pairwise_cons.mp h).1 b hb
        omega

theorem appendErrorMessage_inDocumentOrder (parent : Nat) (message : String)
    (msgs : List (Nat × String)) (h : InDocumentOrder msgs) :
    InDocumentOrder (appendErrorMessage parent message msgs) := by
  unfold appendErrorMessage InDocumentOrder
  rw [List.pairwise_append]
  refine ⟨List.Pairwise.sublist (List.takeWhile_sublist _) h, ?_, ?_⟩
  · rw [List.pairwise_cons]
    refine ⟨fun b hb => Nat.le_of_lt (lt_of_mem_dropWhile parent msgs h b hb),
      List.Pairwise.sublist (List.dropWhile_sublist _) h⟩
  · intro a ha b hb
    have ha' : a.1 ≤ parent := by simpa using List.mem_takeWhile_imp ha
    rcases List.mem_cons.mp hb with rfl | hb
    · exact ha'
    · have := lt_of_mem_dropWhile parent msgs h b hb
      omega

theorem appendErrorMessage_perm (parent : Nat) (message : String)
    (msgs : List (Nat × String)) :
    (appendErrorMessage parent message msgs).Perm ((parent, message) :: msgs) := by
  unfold appendErrorMessage
  have h := @List.perm_middle _ (parent, message)
    (msgs.takeWhile (fun m => decide (m.1 ≤ parent)))
    (msgs.dropWhile (fun m => decide (m.1 ≤ parent)))
  rwa [List.takeWhile_append_dropWhile] at h

theorem parents_eq_of_layout {fs gs : List Field} (h : layout fs = layout gs) :
    parents fs = parents gs := by
  have hf : ∀ l : List Field, parents l = (layout l).map (fun t => t.2.2.2) := by
    intro l
    simp [parents, layout, List.map_map, Function.comp_def]
  rw [hf, hf, h]

theorem spans_eq_of_layout {fs gs : List Field} (h : layout fs = layout gs) :
    spans fs = spans gs := by
  have hf : ∀ l : List Field, spans l = (layout l).map (fun t => t.2.2) := by
    intro l
    simp [spans, layout, List.map_map, Function.comp_def]
  rw [hf, hf, h]

theorem FlatMarkup.of_layout {fs gs : List Field} (h : FlatMarkup fs)
    (hl : layout gs = layout fs) : FlatMarkup gs := by
  unfold FlatMarkup
  rw [spans_eq_of_layout hl]
  exact h

theorem layout_modify (fs : List Field) (i : Nat) (g : Field → Field)
    (hg : ∀ f, (g f).name = f.name ∧ (g f).defaultValue = f.defaultValue ∧
      (g f).parentFirst = f.parentFirst ∧ (g f).parent = f.parent) :
    layout (fs.modify g i) = layout fs := by
  unfold layout
  induction fs generalizing i with
  | nil => simp
  | cons f fs ih =>
    cases i with
    | zero => simp [hg f]
    | succ i => simpa using ih i

theorem layout_map (fs : List Field) (g : Field → Field)
    (hg : ∀ f, (g f).name = f.name ∧ (g f).defaultValue = f.defaultValue ∧
      (g f).parentFirst = f.parentFirst ∧ (g f).parent = f.parent) :
    layout (fs.map g) = layout fs := by
  unfold layout
  induction fs with
  | nil => rfl
  | cons f fs ih =>
    simp only [List.map_cons, hg f, List.cons.injEq, true_and]
    exact ih

theorem inSubtree_iff_of_flat {fs : List Field} (hflat : FlatMarkup fs) {f : Field}
    (hf : f ∈ fs) {m : Nat × String} (hm : m.1 ∈ parents fs) :
    inSubtree f.parentFirst f.parent m = true ↔ m.1 = f.parent := by
  obtain ⟨g, hg, hgm⟩ := List.mem_map.mp hm
  have hsf : (f.parentFirst, f.parent) ∈ spans fs := List.mem_map.mpr ⟨f, hf, rfl⟩
  have hsg : (g.parentFirst, g.parent) ∈ spans fs := List.mem_map.mpr ⟨g, hg, rfl⟩
  obtain ⟨hwf, hin⟩ := hflat _ hsf _ hsg
  simp only [inSubtree, Bool.and_eq_true, decide_eq_true_eq]
  constructor
  · rintro ⟨h₁, h₂⟩
    rw [← hgm] at h₁ h₂ ⊢
    exact hin h₁ h₂
  · intro h
    rw [h]
    exact ⟨hwf, Nat.le_refl _⟩

theorem key_ne_of_mem_eraseP (q : Nat × String → Bool) (k : Nat)
    (msgs : List (Nat × String)) (hnd : (msgs.map Prod.fst).Nodup)
    (hq : ∀ m ∈ msgs, q m = true ↔ m.1 = k) :
    ∀ m ∈ msgs.eraseP q, m.1 ≠ k := by
  induction msgs with
  | nil => simp
  | cons a l ih =>
    simp only [List.map_cons, List.nodup_cons, List.mem_map, not_exists, not_and] at hnd
    obtain ⟨ha, hl⟩ := hnd
    have hql : ∀ m ∈ l, q m = true ↔ m.1 = k := fun m hm => hq m (List.mem_cons_of_mem _ hm)
    by_cases hk : q a = true
    · have hak : a.1 = k := (hq a (by simp)).mp hk
      intro m hm
      rw [List.eraseP_cons_of_pos hk] at hm
      intro hmk
      exact ha m hm (hmk.trans hak.symm)
    · intro m hm
      rw [List.eraseP_cons_of_neg hk] at hm
      rcases List.mem_cons.mp hm with rfl | hm
      · exact fun h => hk ((hq m (by simp)).mpr h)
      · exact ih hl hql m hm

theorem TidyMessages.remove {ps : List Nat} {msgs : List (Nat × String)}
    (h : TidyMessages ps msgs) (parentFirst parent : Nat) :
    TidyMessages ps (removeErrorMessage parentFirst parent msgs) :=
  ⟨h.1.sublist ((List.eraseP_sublist msgs).map Prod.fst),
    fun m hm => h.2 m (List.mem_of_mem_eraseP hm)⟩

theorem TidyMessages.with_appended {ps : List Nat} {msgs : List (Nat × String)}
    (h : TidyMessages ps msgs) (k : Nat) (t : String) (hk : k ∈ ps)
    (hne : ∀ m ∈ msgs, m.1 ≠ k) : TidyMessages ps (appendErrorMessage k t msgs) := by
  have hperm := appendErrorMessage_perm k t msgs
  refine ⟨?_, ?_⟩
  · rw [(hperm.map Prod.fst).nodup_iff, List.map_cons, List.nodup_cons]
    refine ⟨?_, h.1⟩
    intro hmem
    obtain ⟨m, hm, hmk⟩ := List.mem_map.mp hmem
    exact hne m hm hmk
  · intro m hm
    rcases List.mem_cons.mp (hperm.mem_iff.mp hm) with rfl | hm
    · exact hk
    · exact h.2 m hm

theorem foldl_removeErrorMessage_eq_nil (fs : List Field) (msgs : List (Nat × String))
    (h : TidyMessages (parents fs) msgs)
    (hiff : ∀ f ∈ fs, ∀ m ∈ msgs, inSubtree f.parentFirst f.parent m = true ↔ m.1 = f.parent) :
    fs.foldl (fun msgs f => removeErrorMessage f.parentFirst f.parent msgs) msgs = [] := by
  induction fs generalizing msgs with
  | nil =>
    cases msgs with
    | nil => rfl
    | cons m l => exact absurd (h.2 m (by simp)) (by simp [parents])
  | cons f fs ih =>
    simp only [List.foldl_cons]
    have hr := h.remove f.parentFirst f.parent
    have hsub : ∀ m ∈ removeErrorMessage f.parentFirst f.parent msgs, m ∈ msgs :=
      fun m hm => List.mem_of_mem_eraseP hm
    apply ih
    · refine ⟨hr.1, fun m hm => ?_⟩
      have hne := key_ne_of_mem_eraseP _ f.parent msgs h.1 (hiff f (by simp)) m hm
      have hmem := hr.2 m hm
      simp only [parents, List.map_cons, List.mem_cons] at hmem
      rcases hmem with hmem | hmem
      · exact absurd hmem hne
      · exact hmem
    · intro g hg m hm
      exact hiff g (List.mem_cons_of_mem _ hg) m (hsub m hm)

theorem Tidy.of_same_layout {p₀ p q : Page} (h : Tidy p₀ p)
    (hl : layout q.fields = layout p.fields) (he : q.errorMessages = p.errorMessages) :
    Tidy p₀ q := by
  refine ⟨hl.trans h.1, h.2.1.of_layout hl, ?_⟩
  rw [parents_eq_of_layout hl, he]
  exact h.2.2

theorem mem_parents_of_mem {fs : List Field} {f : Field} (h : f ∈ fs) :
    f.parent ∈ parents fs :=
  List.mem_map.mpr ⟨f, h, rfl⟩

theorem Tidy.inSubtree_iff {p₀ p : Page} (h : Tidy p₀ p) {f : Field} (hf : f ∈ p.fields) :
    ∀ m ∈ p.errorMessages, inSubtree f.parentFirst f.parent m = true ↔ m.1 = f.parent :=
  fun m hm => inSubtree_iff_of_flat h.2.1 hf (h.2.2.2 m hm)

theorem tidy_showFieldError {p₀ p : Page} (h : Tidy p₀ p) (i : Nat) (message : String) :
    Tidy p₀ (showFieldError i message p) := by
  unfold showFieldError
  cases hget : p.fields.get? i with
  | none => exact h
  | some field =>
    have hf : field ∈ p.fields := List.get?_mem hget
    have hl : layout (p.fields.modify (fun f => { f with redBorder := true }) i) =
        layout p.fields := layout_modify _ _ _ (fun f => ⟨rfl, rfl, rfl, rfl⟩)
    refine ⟨hl.trans h.1, h.2.1.of_layout hl, ?_⟩
    simp only
    rw [parents_eq_of_layout hl]
    exact (h.2.2.remove field.parentFirst field.parent).with_appended field.parent message
      (mem_parents_of_mem hf)
      (key_ne_of_mem_eraseP _ field.parent p.errorMessages h.2.2.1 (h.inSubtree_iff hf))

theorem tidy_clearValidationStates {p₀ p : Page} (h : Tidy p₀ p) :
    Tidy p₀ (clearValidationStates p) ∧ (clearValidationStates p).errorMessages = [] := by
  have hl : layout (p.fields.map (fun f => { f with redBorder := false })) =
      layout p.fields := layout_map _ _ (fun f => ⟨rfl, rfl, rfl, rfl⟩)
  have he : (clearValidationStates p).errorMessages = [] :=
    foldl_removeErrorMessage_eq_nil p.fields p.errorMessages h.2.2
      (fun f hf => h.inSubtree_iff hf)
  refine ⟨⟨hl.trans h.1, h.2.1.of_layout hl, ?_⟩, he⟩
  rw [he]
  exact ⟨List.nodup_nil, fun m hm => absurd hm (List.not_mem_nil m)⟩

theorem tidy_validateRequiredField {p₀ : Page} {acc : Bool × Page} (h : Tidy p₀ acc.2)
    (fieldName : String) : Tidy p₀ (validateRequiredField acc fieldName).2 := by
  unfold validateRequiredField
  cases querySelectorByName fieldName acc.2.fields with
  | none => exact h
  | some i =>
    simp only
    cases acc.2.fields.get? i with
    | none => exact h
    | some f =>
      simp only
      split
      · exact tidy_showFieldError h _ _
      · split
        · exact tidy_showFieldError h _ _
        · exact h

theorem tidy_foldl_validateRequiredField {p₀ : Page} (names : List String)
    {acc : Bool × Page} (h : Tidy p₀ acc.2) :
    Tidy p₀ (names.foldl validateRequiredField acc).2 := by
  induction names generalizing acc with
  | nil => exact h
  | cons n ns ih => exact ih (tidy_validateRequiredField h n)

theorem tidy_validateForm {p₀ p : Page} (h : Tidy p₀ p) : Tidy p₀ (validateForm p).2 :=
  tidy_foldl_validateRequiredField requiredFields (tidy_clearValidationStates h).1

theorem setLoadingState_errorMessages (b : Bool) (p : Page) :
    (setLoadingState b p).errorMessages = p.errorMessages := by
  obtain ⟨fs, es, sb, st, ss, ns, n, cs⟩ := p
  cases sb <;> cases st <;> cases ss <;> cases b <;> rfl

theorem tidy_setLoadingState {p₀ p : Page} (h : Tidy p₀ p) (b : Bool) :
    Tidy p₀ (setLoadingState b p) :=
  h.of_same_layout (by rw [setLoadingState_fields]) (setLoadingState_errorMessages b p)

theorem tidy_handleFormSubmit {p₀ p : Page} (h : Tidy p₀ p) : Tidy p₀ (handleFormSubmit p) := by
  cases hv : (validateForm p).1
  · rw [handleFormSubmit_rejected p hv]
    exact tidy_validateForm h
  · rw [handleFormSubmit_accepted p hv]
    exact (tidy_setLoadingState (tidy_validateForm h) true).of_same_layout rfl rfl

theorem tidy_onFulfilled {p₀ p : Page} (h : Tidy p₀ p) :
    Tidy p₀ (onFulfilled p) ∧ (onFulfilled p).errorMessages = [] := by
  have hreset : Tidy p₀ (formReset (showNotification
      "Message sent successfully! We'll get back to you soon." "success" p)) :=
    h.of_same_layout (layout_map _ _ (fun f => ⟨rfl, rfl, rfl, rfl⟩)) rfl
  exact tidy_clearValidationStates hreset

theorem tidy_settle {p₀ p : Page} (h : Tidy p₀ p) (o : Outcome) : Tidy p₀ (settle o p) := by
  have h' : Tidy p₀ { p with pending := p.pending - 1 } := h.of_same_layout rfl rfl
  cases o with
  | fulfilled => exact tidy_setLoadingState (tidy_onFulfilled h').1 false
  | rejected status =>
    have hrej : Tidy p₀ (onRejected status { p with pending := p.pending - 1 }) :=
      h'.of_same_layout rfl rfl
    exact tidy_setLoadingState hrej false

theorem tidy_onInput {p₀ p : Page} (h : Tidy p₀ p) (i : Nat) (v : String) :
    Tidy p₀ (onInput i v p) := by
  unfold onInput
  cases p.fields.get? i with
  | none => exact h
  | some field =>
    have hl : layout (p.fields.modify (fun f => { f with value := v, redBorder := false }) i) =
        layout p.fields := layout_modify _ _ _ (fun f => ⟨rfl, rfl, rfl, rfl⟩)
    refine ⟨hl.trans h.1, h.2.1.of_layout hl, ?_⟩
    simp only
    rw [parents_eq_of_layout hl]
    exact h.2.2.remove field.parentFirst field.parent

theorem tidy_validateField {p₀ p : Page} (h : Tidy p₀ p) (i : Nat) :
    Tidy p₀ (validateField i p).2 := by
  unfold validateField
  cases p.fields.get? i with
  | none => exact h
  | some field =>
    simp only
    split
    · exact tidy_showFieldError h _ _
    · split
      · exact tidy_showFieldError h _ _
      · exact h

theorem Tidy.of_steps {p₀ p : Page} (h₀ : Tidy p₀ p₀) (hr : Reachable p₀ p) :
    Tidy p₀ p := by
  induction hr with
  | init => exact h₀
  | step _ hstep ih =>
    cases hstep with
    | submit => exact tidy_handleFormSubmit ih
    | settle o _ => exact tidy_settle ih o
    | input i v => exact tidy_onInput ih i v
    | blur i => exact tidy_validateField ih i

theorem Reachable.append {p₀ p q : Page} (h₁ : Reachable p₀ p) (h₂ : Reachable p q) :
    Reachable p₀ q := by
  induction h₂ with
  | init => exact h₁
  | step _ hstep ih => exact Reachable.step ih hstep

theorem names_eq_of_layout {fs gs : List Field} (h : layout fs = layout gs) :
    fs.map (fun f => f.name) = gs.map (fun f => f.name) := by
  have hf : ∀ l : List Field, l.map (fun f => f.name) = (layout l).map (fun t => t.1) := by
    intro l
    simp [layout, List.map_map, Function.comp_def]
  rw [hf, hf, h]

theorem defaultValues_eq_of_layout {fs gs : List Field} (h : layout fs = layout gs) :
    fs.map (fun f => f.defaultValue) = gs.map (fun f => f.defaultValue) := by
  have hf : ∀ l : List Field,
      l.map (fun f => f.defaultValue) = (layout l).map (fun t => t.2.1) := by
    intro l
    simp [layout, List.map_map, Function.comp_def]
  rw [hf, hf, h]

theorem find_value_of_names (name : String) (fs gs : List Field)
    (h : gs.map (fun f => f.name) = fs.map (fun f => f.name))
    (hg : ∀ g ∈ gs, g.value = "") :
    (gs.find? (fun f => f.name == name)).map (fun f => f.value) =
      ((fs.find? (fun f => f.name == name)).map (fun f => f.value)).map (fun _ => "") := by
  induction fs generalizing gs with
  | nil =>
    cases gs with
    | nil => rfl
    | cons g gs => simp at h
  | cons f fs ih =>
    cases gs with
    | nil => simp at h
    | cons g gs =>
      simp only [List.map_cons, List.cons.injEq] at h
      obtain ⟨hname, htail⟩ := h
      by_cases hn : (f.name == name) = true
      · have hn' : (g.name == name) = true := by rw [hname]; exact hn
        simp [List.find?, hn, hn', hg g (by simp)]
      · simp only [Bool.not_eq_true] at hn
        have hn' : (g.name == name) = false := by rw [hname]; exact hn
        simpa [List.find?, hn, hn'] using
          ih gs htail (fun x hx => hg x (List.mem_cons_of_mem _ hx))

theorem settle_fulfilled_fields (q : Page) :
    (settle Outcome.fulfilled q).fields =
      (q.fields.map (fun f => { f with value := f.defaultValue })).map
        (fun f => { f with redBorder := false }) := by
  simp only [settle, onFinally, setLoadingState_fields]
  rfl

theorem settle_fulfilled_errorMessages (q : Page) :
    (settle Outcome.fulfilled q).errorMessages =
      (q.fields.map (fun f => { f with value := f.defaultValue })).foldl
        (fun msgs f => removeErrorMessage f.parentFirst f.parent msgs) q.errorMessages := by
  simp only [settle, onFinally, setLoadingState_errorMessages]
  rfl

/-- C11 (as stated, refuted): a successful send does not always leave empty
fields and no decoration.  With markup that gives default values, the first
name and the message are reset to those values, not to the empty string.  With
the container of the last name inside that of the first name, two required
errors raised by blur while the send is pending leave the error message of the
first name in place after the success.  With three error messages in one
container at load, one is still there after the success. -/
theorem C11_success_leaves_defaults_and_messages :
    ((validateForm prefilledPage).1 = true ∧
      (settle Outcome.fulfilled (handleFormSubmit prefilledPage)).fields.map
          (fun f => (f.name, f.value)) =
        [("firstName", "Jane"), ("lastName", ""), ("email", ""), ("subject", ""),
         ("message", "Dear team,")]) ∧
      ((validateForm nestedPage).1 = true ∧
        (settle Outcome.fulfilled
            (validateField 1 (onInput 1 "" (validateField 0 (onInput 0 ""
              (handleFormSubmit nestedPage))).2)).2).errorMessages =
          [(1, "This field is required")]) ∧
      ((validateForm stalePage).1 = true ∧
        (settle Outcome.fulfilled (handleFormSubmit stalePage)).errorMessages =
          [(0, "oldest")]) := by
  decide

/-- C11 (amended): when a send settles successfully, every control of the form
takes its default value and loses the red border, and for every control in
turn the first error message found in its container is removed.  On a page
whose markup gives every control the empty default value, has no error message
at load and puts the container of no control inside that of another, when the
send started by `handleFormSubmit` on a valid form settles successfully, in
whatever state the page has reached by then, every control has the empty
value, none has the red border and no error-message element remains; the
fields of the record read as empty. -/
theorem C11_success_resets_form (p₀ p q : Page)
    (hclean : p₀.errorMessages = [])
    (hdef : ∀ f ∈ p₀.fields, f.defaultValue = "")
    (hflat : FlatMarkup p₀.fields)
    (hp : Reachable p₀ p) (hv : (validateForm p).1 = true)
    (hq : Reachable (handleFormSubmit p) q) :
    (∀ r : Page,
        (settle Outcome.fulfilled r).fields.map (fun f => (f.name, f.value, f.redBorder)) =
          r.fields.map (fun f => (f.name, f.defaultValue, false))) ∧
      (∀ r : Page,
        (settle Outcome.fulfilled r).errorMessages =
          r.fields.foldl (fun msgs f => removeErrorMessage f.parentFirst f.parent msgs)
            r.errorMessages) ∧
      (handleFormSubmit p).pending = p.pending + 1 ∧
      (settle Outcome.fulfilled q).fields.map (fun f => f.name) =
        p.fields.map (fun f => f.name) ∧
      (∀ f ∈ (settle Outcome.fulfilled q).fields, f.value = "" ∧ f.redBorder = false) ∧
      (settle Outcome.fulfilled q).errorMessages = [] ∧
      (∀ name v, formDataGet name p = some v →
        formDataGet name (settle Outcome.fulfilled q) = some "") := by
  have h₀ : Tidy p₀ p₀ := by
    refine ⟨rfl, hflat, ?_⟩
    rw [hclean]
    exact ⟨List.nodup_nil, fun m hm => absurd hm (List.not_mem_nil m)⟩
  have htp : Tidy p₀ p := Tidy.of_steps h₀ hp
  have htq : Tidy p₀ q :=
    Tidy.of_steps h₀ ((hp.append (Reachable.step Reachable.init (Step.submit p))).append hq)
  have hts : Tidy p₀ (settle Outcome.fulfilled q) := tidy_settle htq Outcome.fulfilled
  have hnames : (settle Outcome.fulfilled q).fields.map (fun f => f.name) =
      p.fields.map (fun f => f.name) :=
    (names_eq_of_layout hts.1).trans (names_eq_of_layout htp.1).symm
  have hdefq : ∀ f ∈ q.fields, f.defaultValue = "" := by
    intro f hf
    have hmem : f.defaultValue ∈ q.fields.map (fun f => f.defaultValue) :=
      List.mem_map.mpr ⟨f, hf, rfl⟩
    rw [defaultValues_eq_of_layout htq.1] at hmem
    obtain ⟨g, hg, hgf⟩ := List.mem_map.mp hmem
    rw [← hgf]
    exact hdef g hg
  have hvals : ∀ f ∈ (settle Outcome.fulfilled q).fields, f.value = "" ∧ f.redBorder = false := by
    intro f hf
    rw [settle_fulfilled_fields, List.map_map] at hf
    obtain ⟨g, hg, rfl⟩ := List.mem_map.mp hf
    exact ⟨hdefq g hg, rfl⟩
  have herr : (settle Outcome.fulfilled q).errorMessages = [] := by
    have h' : Tidy p₀ { q with pending := q.pending - 1 } := htq.of_same_layout rfl rfl
    simp only [settle, onFinally, setLoadingState_errorMessages]
    exact (tidy_onFulfilled h').2
  refine ⟨?_, ?_, ?_, hnames, hvals, herr, ?_⟩
  · intro r
    rw [settle_fulfilled_fields]
    simp [List.map_map, Function.comp_def]
  · intro r
    rw [settle_fulfilled_errorMessages, List.foldl_map]
  · rw [handleFormSubmit_pending, if_pos hv]
  · intro name v hget
    have := find_value_of_names name p.fields (settle Outcome.fulfilled q).fields hnames
      (fun g hg => (hvals g hg).1)
    unfold formDataGet at hget ⊢
    rw [this, hget]
    rfl

theorem C11_success_resets_form_witness :
    (∀ f ∈ (settle Outcome.fulfilled
          (validateField 0 (onInput 0 "" (handleFormSubmit
            (mkPage "A" "B" "a@b.com" "" "hi")))).2).fields,
        f.value = "" ∧ f.redBorder = false) ∧
      (settle Outcome.fulfilled
          (validateField 0 (onInput 0 "" (handleFormSubmit
            (mkPage "A" "B" "a@b.com" "" "hi")))).2).errorMessages = [] ∧
      (validateField 0 (onInput 0 "" (handleFormSubmit
        (mkPage "A" "B" "a@b.com" "" "hi")))).2.errorMessages =
        [(0, "This field is required")] :=
  ⟨(C11_success_resets_form (mkPage "A" "B" "a@b.com" "" "hi")
      (mkPage "A" "B" "a@b.com" "" "hi")
      (validateField 0 (onInput 0 "" (handleFormSubmit (mkPage "A" "B" "a@b.com" "" "hi")))).2
      rfl (by decide) (by unfold FlatMarkup; decide) Reachable.init (by decide)
      (Reachable.step (Reachable.step Reachable.init (Step.input _ 0 "")) (Step.blur _ 0))
      ).2.2.2.2.1,
    (C11_success_resets_form (mkPage "A" "B" "a@b.com" "" "hi")
      (mkPage "A" "B" "a@b.com" "" "hi")
      (validateField 0 (onInput 0 "" (handleFormSubmit (mkPage "A" "B" "a@b.com" "" "hi")))).2
      rfl (by decide) (by unfold FlatMarkup; decide) Reachable.init (by decide)
      (Reachable.step (Reachable.step Reachable.init (Step.input _ 0 "")) (Step.blur _ 0))
      ).2.2.2.2.2.1,
    by decide⟩

/-! ## Theorems: release of the in-flight lock -/

theorem settle_pending (o : Outcome) (q : Page) : (settle o q).pending = q.pending - 1 := by
  cases o with
  | fulfilled =>
    simp only [settle, onFinally, setLoadingState_pending]
    rfl
  | rejected status =>
    simp only [settle, onFinally, setLoadingState_pending]
    rfl

theorem settle_releases {q : Page} (h : InFlightGuard q) (o : Outcome) :
    (settle o q).submitBtn.map (fun b => b.disabled) = some false ∧
      (settle o q).submitText = some "Send Message" ∧
      submitEnabled (settle o q) = true := by
  obtain ⟨btn, txt, sp, hb, ht, hs, _⟩ := h
  cases o with
  | fulfilled =>
    obtain ⟨c₁, c₂, _⟩ := setLoadingState_controls false
      (onFulfilled { q with pending := q.pending - 1 }) btn txt sp hb ht hs
    have e : settle Outcome.fulfilled q =
        setLoadingState false (onFulfilled { q with pending := q.pending - 1 }) := rfl
    rw [e]
    refine ⟨by rw [c₁]; rfl, by rw [c₂]; rfl, ?_⟩
    simp [submitEnabled, c₁]
  | rejected status =>
    obtain ⟨c₁, c₂, _⟩ := setLoadingState_controls false
      (onRejected status { q with pending := q.pending - 1 }) btn txt sp hb ht hs
    have e : settle (Outcome.rejected status) q =
        setLoadingState false (onRejected status { q with pending := q.pending - 1 }) := rfl
    rw [e]
    refine ⟨by rw [c₁]; rfl, by rw [c₂]; rfl, ?_⟩
    simp [submitEnabled, c₁]

theorem InFlightGuard.disabled_of_pending {q : Page} (h : InFlightGuard q)
    (hp : 0 < q.pending) : q.pending = 1 ∧ submitEnabled q = false := by
  obtain ⟨btn, txt, sp, hb, _, _, hcase⟩ := h
  rcases hcase with ⟨h0, _⟩ | ⟨h1, hd⟩
  · omega
  · exact ⟨h1, by simp [submitEnabled, hb, hd]⟩

theorem InFlightGuard.idle_of_enabled {q : Page} (h : InFlightGuard q)
    (he : submitEnabled q = true) : q.pending = 0 := by
  obtain ⟨btn, txt, sp, hb, _, _, hcase⟩ := h
  rcases hcase with ⟨h0, _⟩ | ⟨_, hd⟩
  · exact h0
  · simp [submitEnabled, hb, hd] at he

/-- C12 (as stated, refuted): a valid submission does not always hold the
lock.  Without the element `#submit-spinner`, `setLoadingState` returns early:
the send is pending and the button is still enabled.  And with two submit
events in a row, the settlement of the first send enables the button while the
second send is still pending. -/
theorem C12_lock_not_held :
    ((validateForm noSpinnerPage).1 = true ∧
      (handleFormSubmit noSpinnerPage).pending = 1 ∧
      submitEnabled (handleFormSubmit noSpinnerPage) = true) ∧
      (Reachable (mkPage "A" "B" "a@b.com" "" "hi")
          (settle Outcome.fulfilled
            (handleFormSubmit (handleFormSubmit (mkPage "A" "B" "a@b.com" "" "hi")))) ∧
        (settle Outcome.fulfilled
          (handleFormSubmit (handleFormSubmit (mkPage "A" "B" "a@b.com" "" "hi")))).pending
          = 1 ∧
        submitEnabled (settle Outcome.fulfilled
          (handleFormSubmit (handleFormSubmit (mkPage "A" "B" "a@b.com" "" "hi")))) = true) :=
  ⟨by decide,
    Reachable.step
      (Reachable.step (Reachable.step Reachable.init (Step.submit _)) (Step.submit _))
      (Step.settle _ Outcome.fulfilled (by decide)),
    by decide, by decide⟩

/-- C12 (amended): on a page that has the submit button, its text and its
spinner, with submit events raised through the enabled button only, a valid
submission disables the button when the send is issued; the button stays
disabled in every state reached while that send is outstanding; and its
settlement, whether a success, a failure with any status or an error without
status, leaves nothing pending, the button enabled and its label
"Send Message". -/
theorem C12_every_outcome_releases_lock (p₀ p : Page) (h₀ : p₀.Idle)
    (hp : GuardedReachable p₀ p) (he : submitEnabled p = true)
    (hv : (validateForm p).1 = true) :
    (handleFormSubmit p).pending = 1 ∧ submitEnabled (handleFormSubmit p) = false ∧
      (∀ q : Page, GuardedReachable (handleFormSubmit p) q → 0 < q.pending →
        q.pending = 1 ∧ submitEnabled q = false) ∧
      (∀ (q : Page) (o : Outcome), GuardedReachable (handleFormSubmit p) q → 0 < q.pending →
        (settle o q).pending = 0 ∧
          (settle o q).submitBtn.map (fun b => b.disabled) = some false ∧
          (settle o q).submitText = some "Send Message" ∧
          submitEnabled (settle o q) = true) := by
  have hg : InFlightGuard p := (InFlightGuard.of_idle h₀).of_reachable hp
  have hgs : InFlightGuard (handleFormSubmit p) := hg.submit he
  have hpend : (handleFormSubmit p).pending = 1 := by
    rw [handleFormSubmit_pending, if_pos hv, hg.idle_of_enabled he]
  refine ⟨hpend, (hgs.disabled_of_pending (by omega)).2, ?_, ?_⟩
  · intro q hq hpos
    exact (hgs.of_reachable hq).disabled_of_pending hpos
  · intro q o hq hpos
    have hgq := hgs.of_reachable hq
    refine ⟨?_, settle_releases hgq o⟩
    rw [settle_pending, (hgq.disabled_of_pending hpos).1]

theorem C12_every_outcome_releases_lock_witness :
    (handleFormSubmit (mkPage "A" "B" "a@b.com" "" "hi")).pending = 1 ∧
      submitEnabled (handleFormSubmit (mkPage "A" "B" "a@b.com" "" "hi")) = false ∧
      (∀ q : Page, GuardedReachable (handleFormSubmit (mkPage "A" "B" "a@b.com" "" "hi")) q →
        0 < q.pending → q.pending = 1 ∧ submitEnabled q = false) ∧
      (∀ (q : Page) (o : Outcome),
        GuardedReachable (handleFormSubmit (mkPage "A" "B" "a@b.com" "" "hi")) q →
        0 < q.pending →
        (settle o q).pending = 0 ∧
          (settle o q).submitBtn.map (fun b => b.disabled) = some false ∧
          (settle o q).submitText = some "Send Message" ∧
          submitEnabled (settle o q) = true) :=
  C12_every_outcome_releases_lock (mkPage "A" "B" "a@b.com" "" "hi")
    (mkPage "A" "B" "a@b.com" "" "hi") ⟨rfl, rfl, rfl, rfl⟩ GuardedReachable.init rfl
    (by decide)

/-! ## Theorems: a preference store that fails -/

/-- C13 (as stated, refuted): with a store whose read and write raise, no
stored preference and the OS signal reporting dark, `loadSavedTheme` raises and
leaves the `dark` class absent; `toggleTheme` raises after changing the class;
the `change` listener raises on an event reporting dark and leaves the class
absent. -/
theorem C13_unavailable_store_raises :
    FallibleStore.loadSavedTheme ⟨true, true⟩ ⟨none, true, false⟩ =
        (⟨none, true, false⟩, Completion.raised) ∧
      FallibleStore.toggleTheme ⟨true, true⟩ ⟨none, true, false⟩ =
        (⟨none, true, true⟩, Completion.raised) ∧
      FallibleStore.onSystemThemeChange ⟨true, true⟩ true ⟨none, false, false⟩ =
        (⟨none, true, false⟩, Completion.raised) := by
  decide

/-- C13 (amended): a failing store makes the theme operations raise.  When the
read fails, `loadSavedTheme` and the `change` listener raise at the read and
leave the `dark` class as it was.  When the write fails, `toggleTheme`, and the
listener under a preference that is unset, change the class and then raise at
the write, storing nothing; a listener that finds a stored preference does
nothing and returns.  `loadSavedTheme` only reads and returns whenever the
read works.  With a store that works, the three operations return and do what
they do without faults. -/
theorem C13_store_faults_propagate :
    (∀ (w : Bool) (s : ThemeState),
        FallibleStore.loadSavedTheme ⟨true, w⟩ s = (s, Completion.raised)) ∧
      (∀ (w m : Bool) (s : ThemeState),
        FallibleStore.onSystemThemeChange ⟨true, w⟩ m s =
          ({ s with prefersDark := m }, Completion.raised)) ∧
      (∀ (r : Bool) (s : ThemeState),
        FallibleStore.toggleTheme ⟨r, true⟩ s =
          ({ s with darkClass := !s.darkClass }, Completion.raised)) ∧
      (∀ (m : Bool) (s : ThemeState), jsTruthy s.storage = false →
        FallibleStore.onSystemThemeChange ⟨false, true⟩ m s =
          ({ s with prefersDark := m, darkClass := m }, Completion.raised)) ∧
      (∀ (w m : Bool) (s : ThemeState), jsTruthy s.storage = true →
        FallibleStore.onSystemThemeChange ⟨false, w⟩ m s =
          ({ s with prefersDark := m }, Completion.normal)) ∧
      (∀ (w : Bool) (s : ThemeState),
        FallibleStore.loadSavedTheme ⟨false, w⟩ s = (loadSavedTheme s, Completion.normal)) ∧
      (∀ (r : Bool) (s : ThemeState),
        FallibleStore.toggleTheme ⟨r, false⟩ s = (toggleTheme s, Completion.normal)) ∧
      (∀ (m : Bool) (s : ThemeState),
        FallibleStore.onSystemThemeChange ⟨false, false⟩ m s =
          (onSystemThemeChange m s, Completion.normal)) := by
  refine ⟨?_, ?_, ?_, ?_, ?_, ?_, ?_, ?_⟩
  · intro w s
    simp [FallibleStore.loadSavedTheme]
  · intro w m s
    simp [FallibleStore.onSystemThemeChange]
  · intro r s
    cases h : s.darkClass <;>
      simp [FallibleStore.toggleTheme, FallibleStore.setDarkTheme,
        FallibleStore.setLightTheme, h]
  · intro m s h
    cases m <;>
      simp [FallibleStore.onSystemThemeChange, FallibleStore.setDarkTheme,
        FallibleStore.setLightTheme, h]
  · intro w m s h
    simp [FallibleStore.onSystemThemeChange, h]
  · intro w s
    simp only [FallibleStore.loadSavedTheme, loadSavedTheme, Bool.false_eq_true, if_false]
    split <;> split <;> simp_all
  · intro r s
    cases h : s.darkClass <;>
      simp [FallibleStore.toggleTheme, FallibleStore.setDarkTheme,
        FallibleStore.setLightTheme, toggleTheme, setDarkTheme, setLightTheme, h]
  · intro m s
    cases hs : jsTruthy s.storage <;> cases m <;>
      simp [FallibleStore.onSystemThemeChange, FallibleStore.setDarkTheme,
        FallibleStore.setLightTheme, onSystemThemeChange, setDarkTheme, setLightTheme, hs]

/-! ## Theorems: submit-time and blur validation -/

theorem querySelectorByName_congr (name : String) (fs gs : List Field)
    (h : contents gs = contents fs) :
    querySelectorByName name gs = querySelectorByName name fs := by
  induction fs generalizing gs with
  | nil =>
    cases gs with
    | nil => rfl
    | cons g gs => simp [contents] at h
  | cons f fs ih =>
    cases gs with
    | nil => simp [contents] at h
    | cons g gs =>
      simp only [contents, List.map_cons, List.cons.injEq, Prod.mk.injEq] at h
      obtain ⟨⟨hname, _⟩, htail⟩ := h
      simp only [querySelectorByName, hname, ih gs htail]

theorem showFieldError_calls_of_get? (i : Nat) (message : String) (p : Page) (f : Field)
    (h : p.fields.get? i = some f) :
    (showFieldError i message p).calls = p.calls ++ [Call.showFieldError i message] := by
  unfold showFieldError
  simp only [h]

theorem validateRequiredField_raises (acc : Bool × Page) (fieldName : String) (i : Nat)
    (hi : querySelectorByName fieldName acc.2.fields = some i)
    (hbad : requiredFieldOk fieldName (formDataGet fieldName acc.2) = false) :
    ∃ message, (validateRequiredField acc fieldName).2.calls =
      acc.2.calls ++ [Call.showFieldError i message] := by
  have hq := querySelectorByName_spec fieldName acc.2.fields
  rw [hi] at hq
  obtain ⟨f, hget, hfind⟩ := hq
  simp only [formDataGet, hfind, Option.map_some', requiredFieldOk] at hbad
  unfold validateRequiredField
  simp only [hi, hget]
  by_cases h₁ : jsTruthy (some (jsTrim f.value)) = true
  · have h₂ : (fieldName == "email" && !isValidEmail f.value) = true := by
      simpa [h₁] using hbad
    exact ⟨"Please enter a valid email address", by
      simp [h₁, h₂, showFieldError_calls_of_get? _ _ _ f hget]⟩
  · simp only [Bool.not_eq_true] at h₁
    exact ⟨"This field is required", by
      simp [h₁, showFieldError_calls_of_get? _ _ _ f hget]⟩

theorem foldl_validateRequiredField_raises (names : List String) (acc : Bool × Page)
    (base u : List Call) (hbase : acc.2.calls = base ++ u) (fieldName : String) (i : Nat)
    (hn : fieldName ∈ names)
    (hi : querySelectorByName fieldName acc.2.fields = some i)
    (hbad : requiredFieldOk fieldName (formDataGet fieldName acc.2) = false) :
    ∃ message w, (names.foldl validateRequiredField acc).2.calls = base ++ w ∧
      Call.showFieldError i message ∈ w := by
  induction names generalizing acc u with
  | nil => simp at hn
  | cons m ms ih =>
    simp only [List.foldl_cons]
    by_cases hm : fieldName = m
    · subst hm
      obtain ⟨message, hcalls⟩ := validateRequiredField_raises acc fieldName i hi hbad
      obtain ⟨v, _, hv⟩ :=
        (foldl_validateRequiredField_spec ms (validateRequiredField acc fieldName)).2.2.1
      refine ⟨message, u ++ [Call.showFieldError i message] ++ v, ?_, by simp⟩
      rw [hv, hcalls, hbase]
      simp
    · have hmem : fieldName ∈ ms := by
        rcases List.mem_cons.mp hn with h | h
        · exact absurd h hm
        · exact h
      have hframe := (validateRequiredField_spec acc m).2
      obtain ⟨v, _, hv⟩ := hframe.2.1
      refine ih (validateRequiredField acc m) (u ++ v) ?_ hmem ?_ ?_
      · rw [hv, hbase, List.append_assoc]
      · rw [querySelectorByName_congr fieldName _ _ hframe.1]
        exact hi
      · rw [formDataGet_congr fieldName hframe.1]
        exact hbad

theorem validateForm_raises (p : Page) (fieldName : String) (i : Nat)
    (hn : fieldName ∈ requiredFields)
    (hi : querySelectorByName fieldName p.fields = some i)
    (hbad : requiredFieldOk fieldName (formDataGet fieldName p) = false) :
    ∃ message, Call.showFieldError i message ∈ (validateForm p).2.calls.drop p.calls.length := by
  have hc := clearValidationStates_frame p
  obtain ⟨message, w, hcalls, hmem⟩ :=
    foldl_validateRequiredField_raises requiredFields (true, clearValidationStates p)
      p.calls [Call.clearValidationStates] rfl fieldName i hn
      (by rw [querySelectorByName_congr fieldName _ _ hc.1]; exact hi)
      (by rw [formDataGet_congr fieldName hc.1]; exact hbad)
  refine ⟨message, ?_⟩
  unfold validateForm
  rw [hcalls, List.drop_left]
  exact hmem

theorem dropWhile_eq_self_of_all_false {α : Type} (q : α → Bool) (l : List α)
    (h : ∀ x ∈ l, q x = false) : l.dropWhile q = l := by
  cases l with
  | nil => rfl
  | cons a l => simp [List.dropWhile, h a (by simp)]

theorem jsTrim_eq_self_of_no_whiteSpace (s : String)
    (h : ∀ c ∈ s.toList, isJsWhiteSpace c = false) : jsTrim s = s := by
  unfold jsTrim jsTrimChars
  rw [dropWhile_eq_self_of_all_false _ _ h,
    dropWhile_eq_self_of_all_false _ _ (fun c hc => h c (List.mem_reverse.mp hc)),
    List.reverse_reverse]
  rfl

theorem isValidEmail_no_whiteSpace (s : String) (h : isValidEmail s = true) :
    ∀ c ∈ s.toList, isJsWhiteSpace c = false :=
  (pattern_imp_shape s.toList ((isValidEmail_iff_pattern s).mp h)).1

/-- C14: for a required-field name (firstName, lastName, email, message) whose
control is in the form, if `validateForm` raises no error on that control then
`validateField` returns true for it, whatever its `required` attribute; an
email accepted by `isValidEmail` has no white space, so trimming leaves it
unchanged. -/
theorem C14_submit_validation_at_least_as_strict (p : Page) (fieldName : String) (i : Nat)
    (hn : fieldName ∈ requiredFields)
    (hi : querySelectorByName fieldName p.fields = some i)
    (hno : ∀ message,
      Call.showFieldError i message ∉ (validateForm p).2.calls.drop p.calls.length) :
    (validateField i p).1 = true ∧
      (∀ s : String, isValidEmail s = true →
        (∀ c ∈ s.toList, isJsWhiteSpace c = false) ∧ jsTrim s = s) := by
  have htrim : ∀ s : String, isValidEmail s = true →
      (∀ c ∈ s.toList, isJsWhiteSpace c = false) ∧ jsTrim s = s :=
    fun s hs => ⟨isValidEmail_no_whiteSpace s hs,
      jsTrim_eq_self_of_no_whiteSpace s (isValidEmail_no_whiteSpace s hs)⟩
  refine ⟨?_, htrim⟩
  have hok : requiredFieldOk fieldName (formDataGet fieldName p) = true := by
    cases hb : requiredFieldOk fieldName (formDataGet fieldName p) with
    | true => rfl
    | false =>
      obtain ⟨message, hmem⟩ := validateForm_raises p fieldName i hn hi hb
      exact absurd hmem (hno message)
  have hq := querySelectorByName_spec fieldName p.fields
  rw [hi] at hq
  obtain ⟨f, hget, hfind⟩ := hq
  have hname : f.name = fieldName := by
    have := List.find?_some hfind
    simpa using this
  simp only [formDataGet, hfind, Option.map_some', requiredFieldOk, Bool.and_eq_true,
    Bool.not_eq_true'] at hok
  obtain ⟨htruthy, hemail⟩ := hok
  unfold validateField
  simp only [hget, htruthy, Bool.not_true, Bool.and_false, Bool.false_eq_true, if_false,
    Bool.and_true, hname]
  by_cases he : (fieldName == "email") = true
  · have hvalid : isValidEmail f.value = true := by simpa [he] using hemail
    rw [(htrim f.value hvalid).2]
    simp [hvalid]
  · simp only [Bool.not_eq_true] at he
    simp [he]

theorem C14_submit_validation_at_least_as_strict_witness :
    (validateField 2 (mkPage "A" "B" "a@b.com" "" "hi")).1 = true ∧
      (∀ s : String, isValidEmail s = true →
        (∀ c ∈ s.toList, isJsWhiteSpace c = false) ∧ jsTrim s = s) :=
  C14_submit_validation_at_least_as_strict (mkPage "A" "B" "a@b.com" "" "hi") "email" 2
    (by decide) rfl
    (fun message hmem => by
      have e : (validateForm (mkPage "A" "B" "a@b.com" "" "hi")).2.calls.drop
          (mkPage "A" "B" "a@b.com" "" "hi").calls.length = [Call.clearValidationStates] := by
        decide
      rw [e] at hmem
      simp at hmem)

end Pinwatta
